import Mathlib

/-!
Verification of the field-sanitization / record-validation engine of the
multinational-retail-data-centralisation repository.

The embedding follows the deduplicated package version of the code
(`data_cleaning/data_cleaning_generic.py`, `data_cleaning/data_cleaning_MRDC.py`,
`data_cleaning/decorators.py`).  A pandas DataFrame is modelled as a `Table`
(header of column names plus rows of `Cell`s); pandas floats are modelled as
exact rationals (every IEEE double is a decimal fraction, and `str(float)` is
its shortest round-tripping decimal form; the model renders plain decimals and
does not reproduce Python's scientific notation for very small/large values);
pandas exceptions (KeyError, ValueError, AttributeError) are modelled as
`Except.error`.  Cell text is `List Char`.
-/

namespace MRDC

/-! ### Character and list utilities -/

def isWS (c : Char) : Bool := c.isWhitespace

/-- Models Python `str.strip()`: drop whitespace from both ends. -/
def trimList (l : List Char) : List Char :=
  ((l.dropWhile isWS).reverse.dropWhile isWS).reverse

def digitVal (c : Char) : Nat := c.toNat - 48

/-- Decimal digit characters for rendering, avoiding `Char.ofNat`. -/
def digitChar (r : Nat) : Char :=
  if r = 0 then '0' else if r = 1 then '1' else if r = 2 then '2'
  else if r = 3 then '3' else if r = 4 then '4' else if r = 5 then '5'
  else if r = 6 then '6' else if r = 7 then '7' else if r = 8 then '8' else '9'

/-- Value of a digit string read left to right. -/
def parseNatVal (l : List Char) : Nat := l.foldl (fun a c => 10 * a + digitVal c) 0

/-- Decimal digits of `n`, most significant first, via explicit fuel
(structural recursion so that the kernel can evaluate it). -/
def natDigitsAux : Nat → Nat → List Char → List Char
  | 0, _, acc => acc
  | fuel + 1, n, acc =>
    if n < 10 then digitChar (n % 10) :: acc
    else natDigitsAux fuel (n / 10) (digitChar (n % 10) :: acc)

def natDigits (n : Nat) : List Char := natDigitsAux (n + 1) n []

/-- Render of an integer, Python `str(int)` style. -/
def intChars (n : Int) : List Char :=
  (if n < 0 then ['-'] else []) ++ natDigits n.natAbs

theorem digitVal_digitChar {r : Nat} (h : r < 10) : digitVal (digitChar r) = r := by
  interval_cases r <;> decide

theorem isDigit_digitChar {r : Nat} (h : r < 10) : (digitChar r).isDigit = true := by
  interval_cases r <;> decide

theorem parseNatVal_from (l : List Char) (s : Nat) :
    l.foldl (fun a c => 10 * a + digitVal c) s = s * 10 ^ l.length + parseNatVal l := by
  induction l generalizing s with
  | nil => simp [parseNatVal]
  | cons c t ih =>
    simp only [List.foldl_cons, parseNatVal, List.length_cons] at *
    rw [ih (10 * s + digitVal c), ih (10 * 0 + digitVal c)]
    ring

theorem parseNatVal_append (a b : List Char) :
    parseNatVal (a ++ b) = parseNatVal a * 10 ^ b.length + parseNatVal b := by
  unfold parseNatVal
  rw [List.foldl_append, parseNatVal_from]
  rfl

theorem parseNatVal_cons (c : Char) (t : List Char) :
    parseNatVal (c :: t) = digitVal c * 10 ^ t.length + parseNatVal t := by
  have := parseNatVal_append [c] t
  simpa [parseNatVal] using this

theorem parseNatVal_natDigitsAux (fuel : Nat) :
    ∀ n acc, n < fuel →
      parseNatVal (natDigitsAux fuel n acc) = n * 10 ^ acc.length + parseNatVal acc := by
  induction fuel with
  | zero => intro n acc h; omega
  | succ fuel ih =>
    intro n acc h
    unfold natDigitsAux
    by_cases h10 : n < 10
    · simp only [h10, if_true]
      rw [parseNatVal_cons, digitVal_digitChar (Nat.mod_lt _ (by norm_num))]
      have : n % 10 = n := Nat.mod_eq_of_lt h10
      rw [this]
    · simp only [h10, if_false]
      have hdiv : n / 10 < fuel := by
        have h1 : n / 10 < n := Nat.div_lt_self (by omega) (by norm_num)
        omega
      rw [ih (n / 10) _ hdiv, parseNatVal_cons,
        digitVal_digitChar (Nat.mod_lt _ (by norm_num))]
      simp only [List.length_cons]
      have hn : n = 10 * (n / 10) + n % 10 := ((Nat.div_add_mod n 10).symm : _)
      rw [pow_succ]
      conv_rhs => rw [hn]
      ring

theorem parseNatVal_natDigits (n : Nat) : parseNatVal (natDigits n) = n := by
  have := parseNatVal_natDigitsAux (n + 1) n [] (Nat.lt_succ_self n)
  simpa [natDigits, parseNatVal] using this

theorem natDigitsAux_ne_nil (fuel n : Nat) (acc : List Char) (h : n < fuel) :
    natDigitsAux fuel n acc ≠ [] := by
  induction fuel generalizing n acc with
  | zero => omega
  | succ fuel ih =>
    unfold natDigitsAux
    by_cases h10 : n < 10
    · simp [h10]
    · simp only [h10, if_false]
      exact ih _ _ (by
        have h1 : n / 10 < n := Nat.div_lt_self (by omega) (by norm_num)
        omega)

theorem natDigits_ne_nil (n : Nat) : natDigits n ≠ [] :=
  natDigitsAux_ne_nil _ _ _ (Nat.lt_succ_self n)

theorem natDigitsAux_digits (fuel : Nat) :
    ∀ n acc, (∀ c ∈ acc, c.isDigit = true) →
      ∀ c ∈ natDigitsAux fuel n acc, c.isDigit = true := by
  induction fuel with
  | zero => intro n acc hacc; exact hacc
  | succ fuel ih =>
    intro n acc hacc
    unfold natDigitsAux
    by_cases h10 : n < 10
    · simp only [h10, if_true]
      intro c hc
      rcases List.mem_cons.mp hc with h | h
      · subst h; exact isDigit_digitChar (Nat.mod_lt _ (by norm_num))
      · exact hacc c h
    · simp only [h10, if_false]
      refine ih _ _ ?_
      intro c hc
      rcases List.mem_cons.mp hc with h | h
      · subst h; exact isDigit_digitChar (Nat.mod_lt _ (by norm_num))
      · exact hacc c h

theorem natDigits_digits (n : Nat) : ∀ c ∈ natDigits n, c.isDigit = true :=
  natDigitsAux_digits _ n [] (by intro c hc; cases hc)

/-! ### Python float parsing and rendering

`astype(float)` on a string column applies Python float conversion to each
cell.  After the validation regexes of the code, the strings reaching the
conversion consist only of digits, `.` and `-`, so the grammar implemented
here (optional minus sign, digits with at most one decimal point, at least
one digit) is exactly the accepted sublanguage; anything else raises
ValueError, modelled as `none`. -/

def isDigitCh (c : Char) : Bool := c.isDigit

def pyFloatAfterSign (l2 : List Char) : Option ℚ :=
  let ip := l2.takeWhile isDigitCh
  let rest := l2.drop ip.length
  if rest = [] then
    if ip = [] then none else some (parseNatVal ip : ℚ)
  else if rest.head? = some '.' then
    let rest2 := rest.tail
    let fp := rest2.takeWhile isDigitCh
    if rest2.drop fp.length = [] ∧ (ip ≠ [] ∨ fp ≠ []) then
      some ((parseNatVal ip : ℚ) + (parseNatVal fp : ℚ) / 10 ^ fp.length)
    else none
  else none

def pyFloatCore (l : List Char) : Option ℚ :=
  if l.head? = some '-' then (pyFloatAfterSign l.tail).map (fun q => -q)
  else pyFloatAfterSign l

/-- Least exponent `k ≤ den` with `den ∣ 10 ^ k`, if any. -/
def decExp (den : Nat) : Option Nat :=
  (List.range (den + 1)).find? (fun k => 10 ^ k % den == 0)

/-- Models Python `str` of a float: a plain decimal rendering (sign, integer
part, `.`, fractional part; integers shown with a trailing `.0` as Python
does).  Python switches to scientific notation for very small or large
magnitudes; the model always renders plain decimals.  Rationals that are not
decimal fractions are not representable as IEEE floats at all; they get an
inert rendering that fails every validation regex. -/
def decDigits (m k : Nat) : List Char :=
  let ds0 := natDigits m
  if ds0.length ≤ k then List.replicate (k + 1 - ds0.length) '0' ++ ds0 else ds0

def decIp (m k : Nat) : List Char := (decDigits m k).take ((decDigits m k).length - k)

def decFp (m k : Nat) : List Char :=
  let fp0 := (decDigits m k).drop ((decDigits m k).length - k)
  if fp0 = [] then ['0'] else fp0

def ratRepr (q : ℚ) : List Char :=
  match decExp q.den with
  | some k =>
    let m : Nat := q.num.natAbs * (10 ^ k / q.den)
    (if q.num < 0 then ['-'] else []) ++ decIp m k ++ '.' :: decFp m k
  | none => ['?']

theorem takeWhile_append_not (p : Char → Bool) (a : List Char) (x : Char) (b : List Char)
    (ha : ∀ c ∈ a, p c = true) (hx : p x = false) :
    (a ++ x :: b).takeWhile p = a := by
  induction a with
  | nil => simp [List.takeWhile, hx]
  | cons c t ih =>
    simp only [List.cons_append, List.takeWhile_cons]
    rw [ha c (by simp)]
    simp only [if_true]
    rw [ih (fun d hd => ha d (by simp [hd]))]

theorem drop_len_append (a b : List Char) : (a ++ b).drop a.length = b := by
  induction a with
  | nil => simp
  | cons c t ih => simp [ih]

theorem parseNatVal_replicate_zero (j : Nat) (l : List Char) :
    parseNatVal (List.replicate j '0' ++ l) = parseNatVal l := by
  rw [parseNatVal_append]
  have : parseNatVal (List.replicate j '0') = 0 := by
    induction j with
    | zero => rfl
    | succ j ih =>
      rw [List.replicate_succ, parseNatVal_cons, ih]
      simp [digitVal]
  rw [this]
  simp

/-- A positive number dividing a power of ten divides the power of ten with
its own exponent. -/
theorem dvd_ten_pow_self (den : Nat) (hpos : 0 < den) :
    ∀ j, den ∣ 10 ^ j → den ∣ 10 ^ den := by
  induction den using Nat.strong_induction_on with
  | _ den ih =>
    intro j hdvd
    rcases Nat.eq_or_lt_of_le hpos with h1 | h1
    · rw [← h1]; exact one_dvd _
    · have hne : den ≠ 1 := by omega
      have hp : Nat.Prime den.minFac := Nat.minFac_prime hne
      have hpd : den.minFac ∣ den := Nat.minFac_dvd den
      have hp10 : den.minFac ∣ 10 := hp.dvd_of_dvd_pow (hpd.trans hdvd)
      set d := den / den.minFac with hd
      have hden : den = den.minFac * d := (Nat.mul_div_cancel' hpd).symm
      have hdpos : 0 < d :=
        Nat.div_pos (Nat.minFac_le (by omega)) (Nat.minFac_pos den)
      have hdlt : d < den := by
        have h2 : 2 ≤ den.minFac := hp.two_le
        calc d = den / den.minFac := hd
          _ ≤ den / 2 := Nat.div_le_div_left h2 (by omega)
          _ < den := Nat.div_lt_self (by omega) (by omega)
      have hddvd : d ∣ 10 ^ j := (Dvd.intro_left _ hden.symm).trans hdvd
      have hd10 : d ∣ 10 ^ d := ih d hdlt hdpos j hddvd
      have : den ∣ 10 ^ (d + 1) := by
        rw [hden, pow_succ, Nat.mul_comm (10 ^ d) 10]
        exact Nat.mul_dvd_mul hp10 hd10
      exact this.trans (pow_dvd_pow 10 (by
        have h2 : 2 ≤ den.minFac := hp.two_le
        calc d + 1 ≤ d + d := by omega
          _ ≤ den.minFac * d := by nlinarith
          _ = den := hden.symm))

theorem decExp_some_dvd {den k : Nat} (h : decExp den = some k) :
    den ∣ 10 ^ k := by
  have := List.find?_some h
  exact Nat.dvd_of_mod_eq_zero (by simpa using this)

theorem decExp_isSome_of_dvd {den j : Nat} (hpos : 0 < den) (h : den ∣ 10 ^ j) :
    (decExp den).isSome = true := by
  have hself : den ∣ 10 ^ den := dvd_ten_pow_self den hpos j h
  rcases hfind : decExp den with _ | k
  · exfalso
    have := List.find?_eq_none.mp hfind den (by
      simp [List.mem_range])
    apply this
    simpa using Nat.mod_eq_zero_of_dvd hself
  · rfl

theorem takeWhile_all (p : Char → Bool) (l : List Char) (h : ∀ c ∈ l, p c = true) :
    l.takeWhile p = l := by
  induction l with
  | nil => rfl
  | cons c t ih =>
    simp only [List.takeWhile_cons, h c (by simp), if_true]
    rw [ih (fun d hd => h d (by simp [hd]))]

/-- Evaluation of the float grammar on a well-formed decimal string. -/
theorem pyFloatAfterSign_decimal (ip fp : List Char) (hip : ip ≠ [])
    (hipd : ∀ c ∈ ip, isDigitCh c = true) (hfpd : ∀ c ∈ fp, isDigitCh c = true) :
    pyFloatAfterSign (ip ++ '.' :: fp) =
      some ((parseNatVal ip : ℚ) + (parseNatVal fp : ℚ) / 10 ^ fp.length) := by
  have htw : (ip ++ '.' :: fp).takeWhile isDigitCh = ip :=
    takeWhile_append_not _ _ _ _ hipd (by decide)
  have hdrop : (ip ++ '.' :: fp).drop ip.length = '.' :: fp := drop_len_append _ _
  have htw2 : fp.takeWhile isDigitCh = fp := takeWhile_all _ _ hfpd
  unfold pyFloatAfterSign
  simp only [htw, hdrop, htw2, List.head?_cons, List.tail_cons, List.drop_length]
  simp [hip]

theorem head_of_digits_ne_minus (ip : List Char) (hip : ip ≠ [])
    (hipd : ∀ c ∈ ip, isDigitCh c = true) : ip.head? ≠ some '-' := by
  cases ip with
  | nil => simp at hip
  | cons c t =>
    have := hipd c (by simp)
    intro hcon
    simp only [List.head?_cons, Option.some.injEq] at hcon
    subst hcon
    simp [isDigitCh] at this

theorem decDigits_len {m k : Nat} : k < (decDigits m k).length := by
  unfold decDigits
  have h1 : 1 ≤ (natDigits m).length := List.length_pos.mpr (natDigits_ne_nil m)
  by_cases hle : (natDigits m).length ≤ k
  · simp only [hle, if_true, List.length_append, List.length_replicate]
    omega
  · simp only [hle, if_false]; omega

theorem decDigits_val (m k : Nat) : parseNatVal (decDigits m k) = m := by
  unfold decDigits
  by_cases hle : (natDigits m).length ≤ k
  · simp only [hle, if_true]
    rw [parseNatVal_replicate_zero, parseNatVal_natDigits]
  · simp only [hle, if_false]
    rw [parseNatVal_natDigits]

theorem decDigits_digits (m k : Nat) : ∀ c ∈ decDigits m k, isDigitCh c = true := by
  unfold decDigits
  by_cases hle : (natDigits m).length ≤ k <;> simp only [hle, if_true, if_false]
  · intro c hc
    rcases List.mem_append.mp hc with hc | hc
    · rcases List.eq_of_mem_replicate hc with rfl; decide
    · exact natDigits_digits m c hc
  · intro c hc; exact natDigits_digits m c hc

theorem decIp_ne_nil (m k : Nat) : decIp m k ≠ [] := by
  unfold decIp
  intro hcon
  have h1 := List.length_take ((decDigits m k).length - k) (decDigits m k)
  rw [hcon] at h1
  simp only [List.length_nil] at h1
  have := @decDigits_len m k
  omega

theorem decIp_digits (m k : Nat) : ∀ c ∈ decIp m k, isDigitCh c = true :=
  fun c hc => decDigits_digits m k c (List.mem_of_mem_take hc)

theorem decFp_digits (m k : Nat) : ∀ c ∈ decFp m k, isDigitCh c = true := by
  unfold decFp
  by_cases hfe : (decDigits m k).drop ((decDigits m k).length - k) = [] <;>
    simp only [hfe, if_true, if_false]
  · intro c hc; rcases List.mem_singleton.mp hc with rfl; decide
  · intro c hc; exact decDigits_digits m k c (List.mem_of_mem_drop hc)

theorem dec_value (m k : Nat) :
    (parseNatVal (decIp m k) : ℚ) + (parseNatVal (decFp m k) : ℚ) / 10 ^ (decFp m k).length
      = (m : ℚ) / 10 ^ k := by
  have hlen := @decDigits_len m k
  by_cases hk : k = 0
  · subst hk
    have hfp0 : (decDigits m 0).drop ((decDigits m 0).length - 0) = [] := by simp
    unfold decFp decIp
    rw [hfp0, if_pos rfl]
    simp only [Nat.sub_zero, List.take_length]
    have h0 : parseNatVal ['0'] = 0 := by decide
    rw [decDigits_val, h0]
    push_cast
    simp
  · have hfpe : (decDigits m k).drop ((decDigits m k).length - k) ≠ [] := by
      intro hcon
      have h1 := List.length_drop ((decDigits m k).length - k) (decDigits m k)
      rw [hcon] at h1
      simp only [List.length_nil] at h1
      omega
    unfold decFp decIp
    rw [if_neg hfpe]
    have hsplit := List.take_append_drop ((decDigits m k).length - k) (decDigits m k)
    have hfplen : ((decDigits m k).drop ((decDigits m k).length - k)).length = k := by
      rw [List.length_drop]; omega
    have happ := parseNatVal_append ((decDigits m k).take ((decDigits m k).length - k))
      ((decDigits m k).drop ((decDigits m k).length - k))
    rw [hsplit, decDigits_val, hfplen] at happ
    rw [hfplen]
    have h10 : (10 : ℚ) ^ k ≠ 0 := by positivity
    have hQ : (m : ℚ) =
        (parseNatVal ((decDigits m k).take ((decDigits m k).length - k)) : ℚ) * 10 ^ k +
        (parseNatVal ((decDigits m k).drop ((decDigits m k).length - k)) : ℚ) := by
      exact_mod_cast happ
    rw [hQ]
    field_simp

/-- Round trip: parsing the decimal rendering of a decimal-fraction rational
recovers the rational exactly (the model counterpart of the fact that
`float(str(x))` round-trips for every IEEE double). -/
theorem pyFloat_ratRepr {q : ℚ} {k : Nat} (h : decExp q.den = some k) :
    pyFloatCore (ratRepr q) = some q := by
  have hdvd : q.den ∣ 10 ^ k := decExp_some_dvd h
  have hdenpos : 0 < q.den := q.pos
  have hrepr : ratRepr q = (if q.num < 0 then ['-'] else []) ++
      decIp (q.num.natAbs * (10 ^ k / q.den)) k ++
      '.' :: decFp (q.num.natAbs * (10 ^ k / q.den)) k := by
    unfold ratRepr
    rw [h]
  have habs : ((q.num.natAbs * (10 ^ k / q.den) : Nat) : ℚ) / 10 ^ k
      = (q.num.natAbs : ℚ) / q.den := by
    push_cast [Nat.cast_div hdvd (by positivity : ((q.den : ℚ)) ≠ 0)]
    field_simp
    ring
  have hmain := pyFloatAfterSign_decimal _ _
    (decIp_ne_nil (q.num.natAbs * (10 ^ k / q.den)) k)
    (decIp_digits (q.num.natAbs * (10 ^ k / q.den)) k)
    (decFp_digits (q.num.natAbs * (10 ^ k / q.den)) k)
  rw [dec_value, habs] at hmain
  by_cases hneg : q.num < 0
  · rw [hrepr, if_pos hneg]
    have hshape : (['-'] ++ decIp (q.num.natAbs * (10 ^ k / q.den)) k ++
        '.' :: decFp (q.num.natAbs * (10 ^ k / q.den)) k) =
        '-' :: (decIp (q.num.natAbs * (10 ^ k / q.den)) k ++
          '.' :: decFp (q.num.natAbs * (10 ^ k / q.den)) k) := by
      simp
    rw [hshape]
    have hstep : pyFloatCore ('-' :: (decIp (q.num.natAbs * (10 ^ k / q.den)) k ++
        '.' :: decFp (q.num.natAbs * (10 ^ k / q.den)) k)) =
        (pyFloatAfterSign (decIp (q.num.natAbs * (10 ^ k / q.den)) k ++
          '.' :: decFp (q.num.natAbs * (10 ^ k / q.den)) k)).map (fun x => -x) := by
      unfold pyFloatCore
      rw [if_pos (by rfl)]
      rfl
    rw [hstep, hmain]
    show some (-((q.num.natAbs : ℚ) / q.den)) = some q
    congr 1
    have hcast : (q.num.natAbs : ℚ) = -(q.num : ℚ) := by
      rw [Int.cast_natAbs]
      exact_mod_cast abs_of_neg hneg
    rw [hcast, neg_div, neg_neg]
    exact Rat.num_div_den q
  · rw [hrepr, if_neg hneg]
    simp only [List.nil_append]
    unfold pyFloatCore
    rw [if_neg (by
      have hne := head_of_digits_ne_minus _
        (decIp_ne_nil (q.num.natAbs * (10 ^ k / q.den)) k)
        (decIp_digits (q.num.natAbs * (10 ^ k / q.den)) k)
      cases hip : decIp (q.num.natAbs * (10 ^ k / q.den)) k with
      | nil => exact absurd hip (decIp_ne_nil _ _)
      | cons c t =>
        rw [hip] at hne
        simp only [List.cons_append, List.head?_cons]
        simpa using hne)]
    rw [hmain]
    congr 1
    have hcast : (q.num.natAbs : ℚ) = (q.num : ℚ) := by
      rw [Int.cast_natAbs]
      exact_mod_cast abs_of_nonneg (not_lt.mp hneg)
    rw [hcast]
    exact Rat.num_div_den q

/-! ### Cells and tables

A pandas cell is either missing (`absent`, covering both `np.nan` and `NaT`),
a piece of text, a float (exact rational), an int64 (unbounded in the model),
or a datetime (encoded as an integer whose ordering matches chronological
order for the date formats the pipelines use). -/

def cs (s : String) : List Char := s.toList

inductive Cell where
  | absent
  | str (s : List Char)
  | num (q : ℚ)
  | int (n : Int)
  | date (d : Int)
deriving DecidableEq, Repr

/-- Python `str()` of a cell, as applied by `astype(str)`: `np.nan` prints as
`nan` (`NaT` prints as `NaT`, but no pipeline ever stringifies a date column,
so `absent` is uniformly rendered `nan`); datetimes print as
`YYYY-MM-DD ...`, which always fails the validators that could meet one, so
the model gives them an inert rendering that likewise fails every validator. -/
def astypeStr : Cell → List Char
  | .absent => cs "nan"
  | .str s => s
  | .num q => ratRepr q
  | .int n => intChars n
  | .date d => 'T' :: natDigits d.natAbs

structure Table where
  header : List String
  rows : List (List Cell)
deriving DecidableEq, Repr

def Table.empty : Table := ⟨[], []⟩

instance exceptDecEq {α β : Type} [DecidableEq α] [DecidableEq β] :
    DecidableEq (Except α β) := fun a b =>
  match a, b with
  | .ok x, .ok y =>
    if h : x = y then .isTrue (by rw [h]) else .isFalse (fun hc => h (by injection hc))
  | .ok _, .error _ => .isFalse (fun hc => Except.noConfusion hc)
  | .error _, .ok _ => .isFalse (fun hc => Except.noConfusion hc)
  | .error x, .error y =>
    if h : x = y then .isTrue (by rw [h]) else .isFalse (fun hc => h (by injection hc))

/-- Position of a column name in the header (first occurrence). -/
def colIdxAux (c : String) : List String → Option Nat
  | [] => none
  | h :: t => if h = c then some 0 else (colIdxAux c t).map (· + 1)

/-- Column lookup; a missing label raises `KeyError` in pandas. -/
def colIdxE (t : Table) (c : String) : Except String Nat :=
  match colIdxAux c t.header with
  | some i => .ok i
  | none => .error ("KeyError: " ++ c)

/-- Replace position `i` of a row by `f` of its current value (missing
positions read as `absent`; `List.set` past the end is a no-op). -/
def mapAt (i : Nat) (f : Cell → Cell) (r : List Cell) : List Cell :=
  r.set i (f (r.getD i Cell.absent))

/-- Apply a per-cell transformation to one named column. -/
def mapCol (t : Table) (c : String) (f : Cell → Cell) : Except String Table := do
  let i ← colIdxE t c
  pure { t with rows := t.rows.map (mapAt i f) }

/-- Apply a fallible per-cell function down a column of rows. -/
def setColE (i : Nat) (f : Cell → Except String Cell) :
    List (List Cell) → Except String (List (List Cell))
  | [] => .ok []
  | r :: rest => do
    let x ← f (r.getD i Cell.absent)
    let rest2 ← setColE i f rest
    pure (r.set i x :: rest2)

/-- Apply a fallible per-cell transformation (e.g. `astype(float)`) to one
named column; a failing cell aborts the whole column, as in pandas. -/
def mapColE (t : Table) (c : String) (f : Cell → Except String Cell) : Except String Table := do
  let i ← colIdxE t c
  let rows ← setColE i f t.rows
  pure { t with rows := rows }

/-- Look up several column labels, raising `KeyError` on the first missing
one. -/
def colIdxsE (t : Table) : List String → Except String (List Nat)
  | [] => .ok []
  | c :: rest => do
    let i ← colIdxE t c
    let rest2 ← colIdxsE t rest
    pure (i :: rest2)

/-! ### Decorators (`decorators.py`) -/

/-- `standardize_nulls`: replace every cell exactly equal to the text `NULL`
or `N/A` by the absent marker, across all columns. -/
def nullCell (x : Cell) : Cell :=
  if x = .str (cs "NULL") ∨ x = .str (cs "N/A") then .absent else x

def standardize_nulls (df : Table) : Table :=
  { df with rows := df.rows.map (List.map nullCell) }

def unwanted_columns : List String := ["index", "Unnamed: 0", "level_0", "1"]

/-- Keep the columns whose index satisfies `keep`, in order (rows are read
through `getD`, so rows are normalized to header length). -/
def projectCols (df : Table) (keep : List Nat) : Table :=
  { header := keep.map (fun i => df.header.getD i ""),
    rows := df.rows.map (fun r => keep.map (fun i => r.getD i Cell.absent)) }

/-- `drop_unwanted_columns`: drop the spurious extraction columns when
present (this decorator tolerates absence). -/
def drop_unwanted_columns (df : Table) : Table :=
  projectCols df ((List.range df.header.length).filter
    (fun i => !(unwanted_columns.contains (df.header.getD i ""))))

/-- `only_clean_nonempty_df`: an empty input short-circuits to
`pd.DataFrame()` (an empty table), running none of the cleaning body. -/
def only_clean_nonempty_df (body : Table → Except String Table) (df : Table) :
    Except String Table :=
  if df.rows.isEmpty then .ok Table.empty else body df

/-! ### Generic column validators (`data_cleaning_generic.py`)

Each pandas column operation in the source acts cellwise; consecutive
operations of one source function on the same column are composed into a
single per-cell function, and the function is mapped over each column in
turn, as in the source loops. -/

/-- `clean_alpha_cols` cell action: a string containing a digit becomes NaN
(the regex replacement only applies to string cells). -/
def alphaCell : Cell → Cell
  | .str s => if s.any (·.isDigit) then .absent else .str s
  | x => x

def clean_alpha_cols (df : Table) (columns : List String) : Except String Table :=
  columns.foldlM (fun t c => mapCol t c alphaCell) df

/-- `clean_card_numbers` cell action: keep only digits; at most 7 digits
(including the empty result) is invalid.  The regex replacements only apply
to string cells. -/
def cardCell : Cell → Cell
  | .str s =>
    let d := s.filter (·.isDigit)
    if d.length ≤ 7 then .absent else .str d
  | x => x

def clean_card_numbers (df : Table) (columns : List String) : Except String Table :=
  columns.foldlM (fun t c => mapCol t c cardCell) df

/-- `clean_categories` cell action: `astype(str).str.strip()` applied to all
cells (so NaN becomes the text `nan`), then membership in the allow-list;
non-members become NaN. -/
def categoryCell (expected_categories : List (List Char)) (x : Cell) : Cell :=
  let s := trimList (astypeStr x)
  if s ∈ expected_categories then .str s else .absent

def clean_categories (df : Table) (columns : List String)
    (expected_categories : List (List Char)) : Except String Table :=
  columns.foldlM (fun t c => mapCol t c (categoryCell expected_categories)) df

/-- Models `pd.to_datetime(..., errors='coerce')` on the formats the
pipelines use: ISO `YYYY-MM-DD` when no format is given, `%m/%y`, and
`%H:%M:%S`.  Dates are encoded as `y * 10000 + m * 100 + d` (ordering agrees
with chronological ordering); `%H:%M:%S` values are encoded as seconds (they
are only ever tested for parseability, never compared).  Already-datetime
cells pass through unchanged; unparseable text gives `none` (NaT). -/
def twoDigits? (l : List Char) : Option Nat :=
  match l with
  | [a, b] => if a.isDigit ∧ b.isDigit then some (digitVal a * 10 + digitVal b) else none
  | _ => none

def parseDateChars (date_format : Option String) (l : List Char) : Option Int :=
  match date_format with
  | some "%m/%y" =>
    match l with
    | [m1, m2, '/', y1, y2] =>
      match twoDigits? [m1, m2], twoDigits? [y1, y2] with
      | some m, some y =>
        if 1 ≤ m ∧ m ≤ 12 then
          let yy := if y ≤ 68 then 2000 + y else 1900 + y
          some (yy * 10000 + m * 100 + 1)
        else none
      | _, _ => none
    | _ => none
  | some "%H:%M:%S" =>
    match l with
    | [h1, h2, ':', m1, m2, ':', s1, s2] =>
      match twoDigits? [h1, h2], twoDigits? [m1, m2], twoDigits? [s1, s2] with
      | some h, some m, some s =>
        if h ≤ 23 ∧ m ≤ 59 ∧ s ≤ 59 then some (h * 3600 + m * 60 + s) else none
      | _, _, _ => none
    | _ => none
  | _ =>
    match l with
    | [y1, y2, y3, y4, '-', m1, m2, '-', d1, d2] =>
      match twoDigits? [y1, y2], twoDigits? [y3, y4], twoDigits? [m1, m2],
          twoDigits? [d1, d2] with
      | some ya, some yb, some m, some d =>
        if 1 ≤ m ∧ m ≤ 12 ∧ 1 ≤ d ∧ d ≤ 31 then
          some ((ya * 100 + yb) * 10000 + m * 100 + d)
        else none
      | _, _, _, _ => none
    | _ => none

/-- `pd.to_datetime` cell action: datetimes pass through, NaN/NaT stays NaT,
text is parsed (unparseable text coerces to NaT), numerics are interpreted
as an epoch offset. -/
def dateCell (date_format : Option String) : Cell → Cell
  | .date d => .date d
  | .absent => .absent
  | .str s =>
    match parseDateChars date_format s with
    | some d => .date d
    | none => .absent
  | .num q => .date (q.num / (q.den : Int))
  | .int n => .date n

/-- The `future_dates_valid=False` step: `df.loc[df[col] > now, col] = NaN`
(comparisons against NaT are false, so absent cells stay). -/
def futureCell (now : Int) : Cell → Cell
  | .date d => if d > now then .absent else .date d
  | x => x

def clean_dates (df : Table) (columns : List String) (date_format : Option String)
    (future_dates_valid : Bool) (now : Int) : Except String Table :=
  columns.foldlM (fun t c => do
    let t ← mapCol t c (dateCell date_format)
    if future_dates_valid then pure t else mapCol t c (futureCell now)) df

/-- Collapse every run of two or more consecutive `@` into a single `@`
(`str.replace(r'@{2,}', '@')`; a lone `@` is also its own run of length 1,
with identical effect). -/
def collapseAtsAux : Bool → List Char → List Char
  | _, [] => []
  | prevAt, c :: rest =>
    if c = '@' then
      if prevAt then collapseAtsAux true rest else '@' :: collapseAtsAux true rest
    else c :: collapseAtsAux false rest

def collapseAts (l : List Char) : List Char := collapseAtsAux false l

/-- The part of the email regex after the `@`: `[^@]+\.[^@\.]+$`, decided by
splitting `dom` at its last dot (the character class of the final label
excludes dots, so the separating dot of any match is the last one). -/
def emailDomOk (dom : List Char) : Bool :=
  decide ('@' ∉ dom) &&
  decide (dom.reverse.takeWhile (· ≠ '.') ≠ []) &&
  decide (dom.reverse.drop (dom.reverse.takeWhile (· ≠ '.')).length ≠ []) &&
  decide ((dom.reverse.drop (dom.reverse.takeWhile (· ≠ '.')).length).tail ≠ [])

/-- Executable decision of `^[^@]+@[^@]+\.[^@\.]+$`: a nonempty `@`-free
local part, an `@` (the first one), and a domain matching `emailDomOk`. -/
def isValidEmail (l : List Char) : Bool :=
  decide (l.takeWhile (· ≠ '@') ≠ []) &&
  decide (l.drop (l.takeWhile (· ≠ '@')).length ≠ []) &&
  emailDomOk ((l.drop (l.takeWhile (· ≠ '@')).length).tail)

/-- `clean_emails` cell action: `astype(str).str.strip()`, collapse `@` runs,
then the validity regex; failures become NaN. -/
def emailCell (x : Cell) : Cell :=
  let s := collapseAts (trimList (astypeStr x))
  if isValidEmail s then .str s else .absent

def clean_emails (df : Table) (columns : List String) : Except String Table :=
  columns.foldlM (fun t c => mapCol t c emailCell) df

/-- Character class of the numeric validation regex `[0-9\.-]`. -/
def numChar (c : Char) : Bool := c.isDigit || c = '.' || c = '-'

/-- Consume an exact character sequence, or fail. -/
def dropExact : List Char → List Char → Option (List Char)
  | [], s => some s
  | _, [] => none
  | c :: t, d :: s => if c = d then dropExact t s else none

/-- The validation regex applied to the rest of a cell after a currency
token: `\s*[0-9\.-]+$`. -/
def numericBody (rest : List Char) : Bool :=
  decide (rest.dropWhile isWS ≠ []) && (rest.dropWhile isWS).all numChar

/-- The validation regex of `clean_numeric_cols`: `^[0-9\.-]+$` without a
currency code, `^<code>\s*[0-9\.-]+$` with one. -/
def numericMatch : Option (List Char) → List Char → Bool
  | none, s => decide (s ≠ []) && s.all numChar
  | some tok, s =>
    match dropExact tok s with
    | none => false
    | some rest => numericBody rest

/-- First stage of `clean_numeric_cols` per cell: `astype(str).str.strip()`,
then the validation regex; failures become NaN. -/
def numericPreCell (currency_code : Option (List Char)) (x : Cell) : Cell :=
  let s := trimList (astypeStr x)
  if numericMatch currency_code s then .str s else .absent

/-- `astype(float)` per cell: NaN stays NaN, text goes through Python float
conversion and raises `ValueError` if unconvertible (e.g. `12.5.3`). -/
def astypeFloatCell : Cell → Except String Cell
  | .absent => .ok .absent
  | .str s =>
    match pyFloatCore s with
    | some q => .ok (.num q)
    | none => .error "ValueError"
  | .num q => .ok (.num q)
  | .int n => .ok (.num n)
  | .date _ => .error "TypeError"

def clean_numeric_cols (df : Table) (columns : List String)
    (currency_code : Option (List Char)) : Except String Table :=
  columns.foldlM (fun t c => do
    let t ← mapCol t c (numericPreCell currency_code)
    match currency_code with
    | none => mapColE t c astypeFloatCell
    | some _ => pure t) df

/-- Characters kept by the phone regex `[^0-9\(\)Xx\+]` replacement. -/
def phoneAllowed (c : Char) : Bool :=
  c.isDigit || c = '(' || c = ')' || c = 'X' || c = 'x' || c = '+'

/-- `clean_phone_numbers` cell action: strip disallowed characters (string
cells only), `astype(str)` (NaN becomes the text `nan`), then fewer than 7
remaining digits becomes NaN. -/
def phoneCell : Cell → Cell
  | .str s =>
    let f := s.filter phoneAllowed
    if (f.filter (·.isDigit)).length < 7 then .absent else .str f
  | x =>
    let s := astypeStr x
    if (s.filter (·.isDigit)).length < 7 then .absent else .str s

def clean_phone_numbers (df : Table) (columns : List String) : Except String Table :=
  columns.foldlM (fun t c => mapCol t c phoneCell) df

/-! ### `convert_product_weights`

Regexes of the source:
  `regex_multiplier      = ([0-9]+)\s*x\s*[0-9]`        (IGNORECASE)
  `regex_weight_per_item = ([0-9\.]+)\s*(?:g|kg|ml|oz)\b`
  `regex_unit            = (?:[0-9\.]+)\s*(g|kg|ml|oz)\b`
`Series.str.extract` takes the captures of the first (leftmost) match.  The
scanners below implement exactly that search: at each start position the
character class is consumed greedily (shrinking it can never help, because
what must follow is of a disjoint character class), and on failure the scan
restarts one position to the right. -/

def isWordChar (c : Char) : Bool := c.isAlphanum || c = '_'

/-- Leftmost match of `([0-9]+)\s*x\s*[0-9]`, returning the captured digit
run. -/
def multSearch : List Char → Option (List Char)
  | [] => none
  | c :: t =>
    (if c.isDigit then
      let run := (c :: t).takeWhile (·.isDigit)
      let rest := ((c :: t).drop run.length).dropWhile isWS
      match rest with
      | x :: r2 =>
        if x = 'x' ∨ x = 'X' then
          match r2.dropWhile isWS with
          | d :: _ => if d.isDigit then some run else none
          | [] => none
        else none
      | [] => none
    else none).orElse (fun _ => multSearch t)

/-- Case-insensitive unit token (`g`, `kg`, `ml`, `oz` tried in alternation
order) followed by a word boundary; returns the token as matched. -/
def tryUnit (u : List Char) (l : List Char) : Option (List Char) :=
  match dropExact u (l.map Char.toLower) with
  | none => none
  | some rest =>
    match rest with
    | [] => some (l.take u.length)
    | c :: _ => if isWordChar c then none else some (l.take u.length)

def tryUnits (l : List Char) : Option (List Char) :=
  (tryUnit (cs "g") l).orElse fun _ =>
    (tryUnit (cs "kg") l).orElse fun _ =>
      (tryUnit (cs "ml") l).orElse fun _ => tryUnit (cs "oz") l

/-- Leftmost match of the weight regexes, returning the captured magnitude
run and unit token (the two source regexes match at the same place, so one
scan yields both captures). -/
def weightSearch : List Char → Option (List Char × List Char)
  | [] => none
  | c :: t =>
    (if c.isDigit ∨ c = '.' then
      let run := (c :: t).takeWhile (fun d => d.isDigit ∨ d = '.')
      let rest := ((c :: t).drop run.length).dropWhile isWS
      match tryUnits rest with
      | some u => some (run, u)
      | none => none
    else none).orElse (fun _ => weightSearch t)

/-- The `conversions` dict: `{'kg': 1, 'g': 1/1000, 'ml': 1/1000, 'oz': 0.0283495}`;
`Series.map` sends keys outside the dict to NaN. -/
def conversions (u : List Char) : Option ℚ :=
  if u = cs "kg" then some 1
  else if u = cs "g" then some (1 / 1000)
  else if u = cs "ml" then some (1 / 1000)
  else if u = cs "oz" then some (283495 / 10000000 : ℚ)
  else none

/-- Per-cell weight conversion: multiplier (default 1), magnitude
(`astype(float)` raises ValueError on multi-dot captures such as `1.2.3`),
unit factor; any failed extraction yields NaN.  Non-string cells in an
object column extract to NaN throughout. -/
def weightCellE (x : Cell) : Except String Cell :=
  match x with
  | .str s =>
    let mult : ℚ := match multSearch s with
      | some run => (parseNatVal run : ℚ)
      | none => 1
    match weightSearch s with
    | none => .ok .absent
    | some (run, u) =>
      match pyFloatCore run with
      | none => .error "ValueError"
      | some w =>
        match conversions (u.map Char.toLower) with
        | some f => .ok (.num (w * mult * f))
        | none => .ok .absent
  | _ => .ok .absent

def isStrCell : Cell → Bool
  | .str _ => true
  | _ => false

/-- `convert_product_weights`: the helper columns `multiplier`,
`weight_per_item` and `unit` that the source adds and drops again are
inlined into one pass over the target column (assuming, as the data does,
that the input has no columns of those names).  The `.str` accessor raises
`AttributeError` on a non-object (all-numeric) column; a column containing
at least one string is object-typed and extracts non-strings to NaN. -/
def convert_product_weights (df : Table) (columns : List String) : Except String Table :=
  columns.foldlM (fun t c => do
    let i ← colIdxE t c
    if (t.rows.map (fun r => r.getD i Cell.absent)).any isStrCell then
      let rows ← setColE i weightCellE t.rows
      pure { t with rows := rows }
    else .error "AttributeError") df

/-! ### Row / column dropping -/

/-- `df.dropna(subset=cols)`: missing subset labels raise KeyError; rows with
NaN in any subset column are dropped. -/
def dropnaSubset (df : Table) (cols : List String) : Except String Table := do
  let idxs ← colIdxsE df cols
  pure { df with
    rows := df.rows.filter
      (fun r => idxs.all (fun i => decide (r.getD i Cell.absent ≠ Cell.absent))) }

/-- `df.dropna()`: drop every row containing a NaN. -/
def dropnaAll (df : Table) : Table :=
  { df with rows := df.rows.filter (fun r => r.all (fun x => decide (x ≠ Cell.absent))) }

/-- `df.dropna(axis=1)`: drop every column containing a NaN. -/
def dropnaCols (df : Table) : Table :=
  projectCols df ((List.range df.header.length).filter
    (fun i => df.rows.all (fun r => decide (r.getD i Cell.absent ≠ Cell.absent))))

/-- `df.drop(cols, axis=1)`: missing labels raise KeyError. -/
def dropCols (df : Table) (cols : List String) : Except String Table := do
  _ ← colIdxsE df cols
  pure (projectCols df ((List.range df.header.length).filter
    (fun i => !(cols.contains (df.header.getD i "")))))

/-- Pointwise replacement `Series.replace(a, b)` (non-regex, exact match). -/
def replaceCell (a b : Cell) (x : Cell) : Cell := if x = a then b else x

/-! ### Entity pipelines (`data_cleaning_MRDC.py`)

Each method is decorated `@only_clean_nonempty_df @time_it @standardize_nulls
@drop_unwanted_columns`: the empty-input guard runs first, then null
standardization, then spurious-column pruning, then the body (`time_it` only
measures wall time and is omitted).  `datetime.now()` is passed in as `now`. -/

def country_codes : List (List Char) := [cs "DE", cs "GB", cs "US"]
def continents : List (List Char) := [cs "Europe", cs "America"]
def time_periods : List (List Char) :=
  [cs "Evening", cs "Morning", cs "Midday", cs "Late_Hours"]
def product_categories : List (List Char) :=
  [cs "diy", cs "food-and-drink", cs "health-and-beauty", cs "homeware",
    cs "pets", cs "sports-and-leisure", cs "toys-and-games"]

/-- The source literal `'Â£'` (a mojibake rendering of `£`). -/
def pound : List Char := cs "Â£"

def clean_card_data (now : Int) (df : Table) : Except String Table :=
  only_clean_nonempty_df (fun df => do
    let df := drop_unwanted_columns (standardize_nulls df)
    let df ← clean_card_numbers df ["card_number"]
    let df ← clean_dates df ["expiry_date"] (some "%m/%y") true now
    let df ← clean_dates df ["date_payment_confirmed"] none false now
    dropnaSubset df ["card_number", "date_payment_confirmed", "expiry_date"]) df

/-- The timestamp validity test `pd.to_datetime(df.timestamp,
format='%H:%M:%S', errors='coerce').notnull()` (the column itself is left
untouched). -/
def timestampValid : Cell → Bool
  | .str s => (parseDateChars (some "%H:%M:%S") s).isSome
  | .absent => false
  | _ => true

/-- `astype(int)` per cell: floats truncate toward zero; NaN raises. -/
def astypeIntCell : Cell → Except String Cell
  | .num q => .ok (.int (q.num / (q.den : Int)))
  | .int n => .ok (.int n)
  | _ => .error "IntCastingNaNError"

def clean_date_time_data (df : Table) : Except String Table :=
  only_clean_nonempty_df (fun df => do
    let df := drop_unwanted_columns (standardize_nulls df)
    let df ← clean_numeric_cols df ["month", "day", "year"] none
    let df ← clean_categories df ["time_period"] time_periods
    let i ← colIdxE df "timestamp"
    let df := { df with
      rows := df.rows.filter (fun r => timestampValid (r.getD i Cell.absent)) }
    let df := dropnaAll df
    ["month", "day", "year"].foldlM (fun t c => mapColE t c astypeIntCell) df) df

def clean_orders_data (df : Table) : Except String Table :=
  only_clean_nonempty_df (fun df => do
    let df := drop_unwanted_columns (standardize_nulls df)
    let df ← dropCols df ["first_name", "last_name"]
    let df ← clean_card_numbers df ["card_number"]
    let df ← clean_numeric_cols df ["product_quantity"] none
    pure (dropnaCols df)) df

def clean_products_data (now : Int) (df : Table) : Except String Table :=
  only_clean_nonempty_df (fun df => do
    let df := drop_unwanted_columns (standardize_nulls df)
    let df ← convert_product_weights df ["weight"]
    let df ← clean_numeric_cols df ["product_price"] (some pound)
    let df ← clean_dates df ["date_added"] none true now
    let df ← clean_categories df ["category"] product_categories
    let df ← mapCol df "removed"
      (replaceCell (.str (cs "Still_avaliable")) (.str (cs "Still_available")))
    pure (dropnaAll df)) df

/-- Python `str.capitalize()`: first character upper-cased, the rest
lower-cased. -/
def capitalizeCell : Cell → Cell
  | .str [] => .str []
  | .str (c :: t) => .str (c.toUpper :: t.map Char.toLower)
  | x => x

/-- `str.replace(r'^ee', '', regex=True)` (at most one match, at the start). -/
def stripLeadingEe : Cell → Cell
  | .str ('e' :: 'e' :: t) => .str t
  | x => x

def astypeStrCell (x : Cell) : Cell := .str (astypeStr x)

def clean_store_data (now : Int) (df : Table) : Except String Table :=
  only_clean_nonempty_df (fun df => do
    let df := drop_unwanted_columns (standardize_nulls df)
    let df ← clean_dates df ["opening_date"] none true now
    let df ← clean_categories df ["country_code"] country_codes
    let df ← mapCol df "continent" astypeStrCell
    let df ← mapCol df "continent" stripLeadingEe
    let df ← mapCol df "continent" capitalizeCell
    let df ← clean_categories df ["continent"] continents
    let df ← clean_alpha_cols df ["store_type", "locality"]
    let df ← clean_numeric_cols df ["latitude", "lat", "longitude", "staff_numbers"] none
    dropnaSubset df ["store_code", "store_type", "country_code"]) df

def clean_user_data (now : Int) (df : Table) : Except String Table :=
  only_clean_nonempty_df (fun df => do
    let df := drop_unwanted_columns (standardize_nulls df)
    let df ← clean_alpha_cols df ["first_name", "last_name", "country"]
    let df ← clean_dates df ["date_of_birth", "join_date"] none false now
    let df ← mapCol df "country_code" (replaceCell (.str (cs "GGB")) (.str (cs "GB")))
    let df ← clean_categories df ["country_code"] country_codes
    let df ← clean_phone_numbers df ["phone_number"]
    let df ← clean_emails df ["email_address"]
    dropnaSubset df ["first_name", "last_name"]) df

/-! ### Basic algebra of rows and columns -/

theorem getD_set_self {r : List Cell} {i : Nat} {a d : Cell} (h : i < r.length) :
    (r.set i a).getD i d = a := by
  induction r generalizing i with
  | nil => simp at h
  | cons x t ih =>
    cases i with
    | zero => rfl
    | succ j => exact ih (by simpa using h)

theorem getD_set_ne {r : List Cell} {i j : Nat} {a d : Cell} (h : i ≠ j) :
    (r.set i a).getD j d = r.getD j d := by
  induction r generalizing i j with
  | nil => simp
  | cons x t ih =>
    cases i with
    | zero => cases j with
      | zero => exact absurd rfl h
      | succ j2 => rfl
    | succ i2 => cases j with
      | zero => rfl
      | succ j2 => exact ih (by omega)

theorem set_getD_self {r : List Cell} {i : Nat} {d : Cell} :
    r.set i (r.getD i d) = r := by
  induction r generalizing i with
  | nil => rfl
  | cons x t ih =>
    cases i with
    | zero => rfl
    | succ j =>
      show x :: t.set j (t.getD j d) = x :: t
      rw [ih]

theorem set_oob {r : List Cell} {i : Nat} {a : Cell} (h : r.length ≤ i) :
    r.set i a = r := by
  induction r generalizing i with
  | nil => rfl
  | cons x t ih =>
    cases i with
    | zero => simp at h
    | succ j =>
      show x :: t.set j a = x :: t
      rw [ih (by simpa using h)]

theorem mapAt_fix {i : Nat} {f : Cell → Cell} {r : List Cell}
    (h : f (r.getD i Cell.absent) = r.getD i Cell.absent) : mapAt i f r = r := by
  unfold mapAt
  rw [h, set_getD_self]

theorem length_mapAt (i : Nat) (f : Cell → Cell) (r : List Cell) :
    (mapAt i f r).length = r.length := by
  simp [mapAt]

theorem getD_mapAt_ne {i j : Nat} (f : Cell → Cell) (r : List Cell) (h : i ≠ j) :
    (mapAt i f r).getD j Cell.absent = r.getD j Cell.absent :=
  getD_set_ne h

theorem getD_mapAt_self {i : Nat} (f : Cell → Cell) (r : List Cell) (h : i < r.length) :
    (mapAt i f r).getD i Cell.absent = f (r.getD i Cell.absent) :=
  getD_set_self h

theorem mapAt_mapAt (i : Nat) (f g : Cell → Cell) (r : List Cell) :
    mapAt i g (mapAt i f r) = mapAt i (fun x => g (f x)) r := by
  by_cases h : i < r.length
  · unfold mapAt
    rw [getD_set_self h, List.set_set]
  · have hle : r.length ≤ i := by omega
    unfold mapAt
    simp only [set_oob hle]

/-- Membership of the cells of `mapAt`: each cell is an old cell or the image
of the old cell at `i`. -/
theorem mem_mapAt {i : Nat} {f : Cell → Cell} {r : List Cell} {x : Cell}
    (h : x ∈ mapAt i f r) : x ∈ r ∨ x = f (r.getD i Cell.absent) := by
  unfold mapAt at h
  by_cases hi : i < r.length
  · rcases List.mem_or_eq_of_mem_set h with h2 | h2
    · exact Or.inl h2
    · exact Or.inr h2
  · rw [set_oob (by omega)] at h
    exact Or.inl h

/-! Column-name lookup. -/

theorem colIdxAux_getD {c : String} {l : List String} {i : Nat}
    (h : colIdxAux c l = some i) : l.getD i "" = c ∧ i < l.length := by
  induction l generalizing i with
  | nil => simp [colIdxAux] at h
  | cons x t ih =>
    unfold colIdxAux at h
    by_cases hx : x = c
    · rw [if_pos hx] at h
      cases h
      exact ⟨hx, by simp⟩
    · rw [if_neg hx] at h
      rcases hi2 : colIdxAux c t with _ | i2
      · rw [hi2] at h; simp at h
      · rw [hi2] at h
        have h2 : i2 + 1 = i := by injection h
        subst h2
        have := ih hi2
        exact ⟨this.1, by simpa using this.2⟩

theorem colIdxAux_none {c : String} {l : List String} :
    colIdxAux c l = none ↔ c ∉ l := by
  induction l with
  | nil => simp [colIdxAux]
  | cons x t ih =>
    unfold colIdxAux
    by_cases hx : x = c
    · simp [hx]
    · rw [if_neg hx]
      constructor
      · intro h hcon
        have h0 : colIdxAux c t = none := by
          rcases hh : colIdxAux c t with _ | i
          · rfl
          · rw [hh] at h; simp at h
        rcases List.mem_cons.mp hcon with hcon | hcon
        · exact hx hcon.symm
        · exact (ih.mp h0) hcon
      · intro h
        have hct : c ∉ t := fun hc => h (List.mem_cons_of_mem _ hc)
        rw [ih.mpr hct]
        rfl

theorem colIdxAux_isSome {c : String} {l : List String} (h : c ∈ l) :
    ∃ i, colIdxAux c l = some i := by
  rcases hi : colIdxAux c l with _ | i
  · exact absurd h (colIdxAux_none.mp hi)
  · exact ⟨i, rfl⟩

/-- Distinct names occupy distinct column positions. -/
theorem colIdxAux_inj {c d : String} {l : List String} {i j : Nat}
    (hc : colIdxAux c l = some i) (hd : colIdxAux d l = some j) (hne : c ≠ d) :
    i ≠ j := by
  intro hcon
  subst hcon
  have h1 := (colIdxAux_getD hc).1
  have h2 := (colIdxAux_getD hd).1
  exact hne (h1 ▸ h2 ▸ rfl)

/-! Well-formedness and invariants of tables. -/

/-- Every row has exactly one cell per header entry. -/
def WF (t : Table) : Prop := ∀ r ∈ t.rows, r.length = t.header.length

/-- Every cell of the table satisfies `P`. -/
def AllCells (P : Cell → Prop) (t : Table) : Prop := ∀ r ∈ t.rows, ∀ x ∈ r, P x

/-- Every cell of column `c` satisfies `P`. -/
def ColPred (t : Table) (c : String) (P : Cell → Prop) : Prop :=
  ∀ i, colIdxAux c t.header = some i → ∀ r ∈ t.rows, P (r.getD i Cell.absent)

/-! Evaluation lemmas for the column operations. -/

theorem mapCol_eq_some {t : Table} {c : String} {i : Nat} (f : Cell → Cell)
    (hidx : colIdxAux c t.header = some i) :
    mapCol t c f = .ok { t with rows := t.rows.map (mapAt i f) } := by
  unfold mapCol colIdxE
  rw [hidx]
  rfl

theorem mapCol_eq_none {t : Table} {c : String} (f : Cell → Cell)
    (hidx : colIdxAux c t.header = none) :
    mapCol t c f = .error ("KeyError: " ++ c) := by
  unfold mapCol colIdxE
  rw [hidx]
  rfl

theorem mapCol_ok_header {t u : Table} {c : String} {f : Cell → Cell}
    (h : mapCol t c f = .ok u) : u.header = t.header := by
  unfold mapCol colIdxE at h
  rcases hidx : colIdxAux c t.header with _ | i <;> rw [hidx] at h
  · simp [Bind.bind, Except.bind] at h
  · simp only [Bind.bind, Except.bind, pure, Except.pure] at h
    cases h
    rfl

theorem mapCol_fix {t : Table} {c : String} {i : Nat} {f : Cell → Cell}
    (hidx : colIdxAux c t.header = some i)
    (h : ∀ r ∈ t.rows, f (r.getD i Cell.absent) = r.getD i Cell.absent) :
    mapCol t c f = .ok t := by
  rw [mapCol_eq_some f hidx]
  have : t.rows.map (mapAt i f) = t.rows.map id :=
    List.map_congr_left (fun r hr => mapAt_fix (h r hr))
  rw [this, List.map_id]

theorem setColE_eq {i : Nat} {f : Cell → Except String Cell} {g : Cell → Cell}
    {rows : List (List Cell)}
    (h : ∀ r ∈ rows, f (r.getD i Cell.absent) = .ok (g (r.getD i Cell.absent))) :
    setColE i f rows = .ok (rows.map (mapAt i g)) := by
  induction rows with
  | nil => rfl
  | cons r rest ih =>
    unfold setColE
    rw [h r (by simp)]
    rw [ih (fun r2 hr2 => h r2 (by simp [hr2]))]
    rfl

theorem mapColE_eq_some {t : Table} {c : String} {i : Nat} {f : Cell → Except String Cell}
    {g : Cell → Cell} (hidx : colIdxAux c t.header = some i)
    (h : ∀ r ∈ t.rows, f (r.getD i Cell.absent) = .ok (g (r.getD i Cell.absent))) :
    mapColE t c f = .ok { t with rows := t.rows.map (mapAt i g) } := by
  unfold mapColE colIdxE
  rw [hidx]
  show (setColE i f t.rows).bind _ = _
  rw [setColE_eq h]
  rfl

/-- Generic success of a fold of per-column steps when every step succeeds on
present columns and preserves the header. -/
theorem foldlM_total (step : Table → String → Except String Table)
    (hstep : ∀ t c, c ∈ t.header → ∃ u, step t c = .ok u ∧ u.header = t.header) :
    ∀ (cols : List String) (t : Table), (∀ c ∈ cols, c ∈ t.header) →
      ∃ u, List.foldlM step t cols = .ok u ∧ u.header = t.header := by
  intro cols
  induction cols with
  | nil => exact fun t _ => ⟨t, rfl, rfl⟩
  | cons c rest ih =>
    intro t h
    obtain ⟨t2, ht2, hh2⟩ := hstep t c (h c (by simp))
    obtain ⟨u, hu, hh⟩ := ih t2 (fun d hd => hh2 ▸ h d (by simp [hd]))
    refine ⟨u, ?_, hh.trans hh2⟩
    show step t c >>= (fun t2 => List.foldlM step t2 rest) = .ok u
    rw [ht2]
    exact hu

theorem mapCol_total (f : Cell → Cell) :
    ∀ (t : Table) (c : String), c ∈ t.header →
      ∃ u, mapCol t c f = .ok u ∧ u.header = t.header := by
  intro t c h
  obtain ⟨i, hi⟩ := colIdxAux_isSome h
  exact ⟨_, mapCol_eq_some f hi, rfl⟩

/-- The empty-table fast path shared by every pipeline. -/
theorem guard_empty (body : Table → Except String Table) (df : Table) (h : df.rows = []) :
    only_clean_nonempty_df body df = .ok Table.empty := by
  unfold only_clean_nonempty_df
  rw [h]
  rfl

/-! ### Claim C7 -/

/-- C7: every entity pipeline short-circuits a zero-row input table to the
empty table (`pd.DataFrame()`), whatever its columns hold — in particular no
column is consulted and no validator runs, since the very same empty result
is produced for every zero-row table. -/
theorem spec_C7 :
    (∀ now df, df.rows = [] → clean_user_data now df = .ok Table.empty) ∧
    (∀ now df, df.rows = [] → clean_card_data now df = .ok Table.empty) ∧
    (∀ now df, df.rows = [] → clean_store_data now df = .ok Table.empty) ∧
    (∀ now df, df.rows = [] → clean_products_data now df = .ok Table.empty) ∧
    (∀ df, df.rows = [] → clean_orders_data df = .ok Table.empty) ∧
    (∀ df, df.rows = [] → clean_date_time_data df = .ok Table.empty) := by
  refine ⟨fun now df h => ?_, fun now df h => ?_, fun now df h => ?_,
    fun now df h => ?_, fun df h => ?_, fun df h => ?_⟩ <;>
    exact guard_empty _ _ h

/-- Witness for C7 at a concrete one-column zero-row table. -/
theorem spec_C7_witness :
    clean_user_data 0 ⟨["first_name"], []⟩ = .ok Table.empty ∧
    clean_card_data 0 ⟨["card_number"], []⟩ = .ok Table.empty ∧
    clean_store_data 0 ⟨[], []⟩ = .ok Table.empty ∧
    clean_products_data 0 ⟨["weight"], []⟩ = .ok Table.empty ∧
    clean_orders_data ⟨["card_number"], []⟩ = .ok Table.empty ∧
    clean_date_time_data ⟨["timestamp"], []⟩ = .ok Table.empty :=
  ⟨spec_C7.1 0 _ rfl, spec_C7.2.1 0 _ rfl, spec_C7.2.2.1 0 _ rfl,
    spec_C7.2.2.2.1 0 _ rfl, spec_C7.2.2.2.2.1 _ rfl, spec_C7.2.2.2.2.2 _ rfl⟩

/-! ### Claim C2 -/

/-- C2: the alphabetic, card-number, category, date, phone and email
validators are total — on any table whose targeted columns exist they return
a table and never raise.  The numeric validator is **not** total: a cell such
as `1-2` passes the validation regex `^[0-9\.-]+$`, so it is not replaced by
NaN, and the subsequent `astype(float)` raises `ValueError`.  (The weight
parser has the analogous defect, exhibited with claim C9.) -/
theorem spec_C2 :
    (∀ t cols, (∀ c ∈ cols, c ∈ t.header) → ∃ u, clean_alpha_cols t cols = .ok u) ∧
    (∀ t cols, (∀ c ∈ cols, c ∈ t.header) → ∃ u, clean_card_numbers t cols = .ok u) ∧
    (∀ t cols exp, (∀ c ∈ cols, c ∈ t.header) → ∃ u, clean_categories t cols exp = .ok u) ∧
    (∀ t cols fmt fv now, (∀ c ∈ cols, c ∈ t.header) →
      ∃ u, clean_dates t cols fmt fv now = .ok u) ∧
    (∀ t cols, (∀ c ∈ cols, c ∈ t.header) → ∃ u, clean_phone_numbers t cols = .ok u) ∧
    (∀ t cols, (∀ c ∈ cols, c ∈ t.header) → ∃ u, clean_emails t cols = .ok u) ∧
    clean_numeric_cols ⟨["n"], [[.str (cs "1-2")]]⟩ ["n"] none = .error "ValueError" := by
  refine ⟨?_, ?_, ?_, ?_, ?_, ?_, by rfl⟩
  · intro t cols h
    obtain ⟨u, hu, _⟩ := foldlM_total _ (fun t c => mapCol_total alphaCell t c) cols t h
    exact ⟨u, hu⟩
  · intro t cols h
    obtain ⟨u, hu, _⟩ := foldlM_total _ (fun t c => mapCol_total cardCell t c) cols t h
    exact ⟨u, hu⟩
  · intro t cols exp h
    obtain ⟨u, hu, _⟩ :=
      foldlM_total _ (fun t c => mapCol_total (categoryCell exp) t c) cols t h
    exact ⟨u, hu⟩
  · intro t cols fmt fv now h
    obtain ⟨u, hu, _⟩ := foldlM_total
      (fun t c => do
        let t ← mapCol t c (dateCell fmt)
        if fv then pure t else mapCol t c (futureCell now))
      (fun t c hc => by
        obtain ⟨u, hu, hh⟩ := mapCol_total (dateCell fmt) t c hc
        cases fv with
        | true =>
          refine ⟨u, ?_, hh⟩
          show mapCol t c (dateCell fmt) >>= _ = _
          rw [hu]
          rfl
        | false =>
          obtain ⟨v, hv, hh2⟩ := mapCol_total (futureCell now) u c (hh ▸ hc)
          refine ⟨v, ?_, hh2.trans hh⟩
          show mapCol t c (dateCell fmt) >>= _ = _
          rw [hu]
          exact hv) cols t h
    exact ⟨u, hu⟩
  · intro t cols h
    obtain ⟨u, hu, _⟩ := foldlM_total _ (fun t c => mapCol_total phoneCell t c) cols t h
    exact ⟨u, hu⟩
  · intro t cols h
    obtain ⟨u, hu, _⟩ := foldlM_total _ (fun t c => mapCol_total emailCell t c) cols t h
    exact ⟨u, hu⟩

/-- Witness for C2 at concrete single-column tables. -/
theorem spec_C2_witness :
    (∃ u, clean_alpha_cols ⟨["a"], [[.str (cs "x1")]]⟩ ["a"] = .ok u) ∧
    (∃ u, clean_card_numbers ⟨["a"], [[.str (cs "41")]]⟩ ["a"] = .ok u) ∧
    (∃ u, clean_categories ⟨["a"], [[.str (cs "GB")]]⟩ ["a"] country_codes = .ok u) ∧
    (∃ u, clean_dates ⟨["a"], [[.str (cs "nope")]]⟩ ["a"] none false 0 = .ok u) ∧
    (∃ u, clean_phone_numbers ⟨["a"], [[.absent]]⟩ ["a"] = .ok u) ∧
    (∃ u, clean_emails ⟨["a"], [[.str (cs "a@@b.c")]]⟩ ["a"] = .ok u) :=
  ⟨spec_C2.1 _ _ (by simp), spec_C2.2.1 _ _ (by simp),
    spec_C2.2.2.1 _ _ _ (by simp), spec_C2.2.2.2.1 _ _ _ _ _ (by simp),
    spec_C2.2.2.2.2.1 _ _ (by simp), spec_C2.2.2.2.2.2.1 _ _ (by simp)⟩

/-! ### Claim C5 -/

/-- C5: without a currency token, `12.5` parses to the float 12.5 and `-3` to
-3.0; with the currency token `Â£`, `Â£12.50` passes validation and stays
text.  But `12.5.3` does **not** become the absent marker: it matches the
validation predicate `^[0-9\.-]+$` (final conjunct), survives validation as
text, and the ensuing `astype(float)` raises `ValueError` instead of
returning. -/
theorem spec_C5 :
    clean_numeric_cols ⟨["v"], [[.str (cs "12.5")], [.str (cs "-3")]]⟩ ["v"] none
      = .ok ⟨["v"], [[.num (25 / 2 : ℚ)], [.num (-3 : ℚ)]]⟩ ∧
    clean_numeric_cols ⟨["v"], [[.str (cs "12.5.3")]]⟩ ["v"] none = .error "ValueError" ∧
    clean_numeric_cols ⟨["v"], [[.str (cs "Â£12.50")]]⟩ ["v"] (some pound)
      = .ok ⟨["v"], [[.str (cs "Â£12.50")]]⟩ ∧
    numericMatch none (cs "12.5.3") = true := by
  refine ⟨?_, ?_, ?_, ?_⟩ <;> (set_option maxRecDepth 6000 in with_unfolding_all decide)

/-! ### Claim C9 -/

/-- C9: the weight parser converts extractable magnitudes as
magnitude × multiplier × unit-factor (`10 x 200g` → 2 kg, `500ml` → 0.5 kg,
`2kg` → 2 kg, `1oz` → 0.0283495 kg) and turns unextractable cells (`garbage`)
into NaN; but on `1.2.3g` the magnitude regex `[0-9\.]+` captures `1.2.3`,
and `astype(float)` then raises `ValueError` instead of yielding NaN. -/
theorem spec_C9 :
    convert_product_weights ⟨["weight"], [[.str (cs "10 x 200g")], [.str (cs "500ml")],
      [.str (cs "2kg")], [.str (cs "1oz")], [.str (cs "garbage")]]⟩ ["weight"]
      = .ok ⟨["weight"], [[.num ((200 : ℚ) * 10 * (1 / 1000))],
        [.num ((500 : ℚ) * 1 * (1 / 1000))], [.num ((2 : ℚ) * 1 * 1)],
        [.num ((1 : ℚ) * 1 * (283495 / 10000000))], [.absent]]⟩ ∧
    (200 : ℚ) * 10 * (1 / 1000) = 2 ∧
    (500 : ℚ) * 1 * (1 / 1000) = 1 / 2 ∧
    (2 : ℚ) * 1 * 1 = 2 ∧
    (1 : ℚ) * 1 * (283495 / 10000000) = 283495 / 10000000 ∧
    convert_product_weights ⟨["weight"], [[.str (cs "1.2.3g")]]⟩ ["weight"]
      = .error "ValueError" := by
  refine ⟨rfl, by norm_num, by norm_num, by norm_num, by norm_num, rfl⟩

/-! ### Claim C10 -/

theorem dropExact_decomp : ∀ (a s r : List Char), dropExact a s = some r → ∃ p, s = p ++ r := by
  intro a
  induction a with
  | nil =>
    intro s r h
    simp only [dropExact, Option.some.injEq] at h
    exact ⟨[], by simp [h]⟩
  | cons c t ih =>
    intro s r h
    cases s with
    | nil => exact absurd h (by simp [dropExact])
    | cons d s2 =>
      unfold dropExact at h
      by_cases hc : c = d
      · rw [if_pos hc] at h
        obtain ⟨p, hp⟩ := ih s2 r h
        exact ⟨d :: p, by rw [hp]; rfl⟩
      · rw [if_neg hc] at h
        cases h

theorem mem_of_mem_dropWhile {p : Char → Bool} :
    ∀ {l : List Char} {x : Char}, x ∈ l.dropWhile p → x ∈ l := by
  intro l
  induction l with
  | nil => intro x h; exact absurd h (by simp)
  | cons c t ih =>
    intro x h
    rw [List.dropWhile_cons] at h
    by_cases hc : p c = true
    · rw [if_pos hc] at h
      exact List.mem_cons_of_mem _ (ih h)
    · rw [if_neg hc] at h
      exact h

/-- An always-absent cell stays absent in the numeric validator, for every
currency token: the cell stringifies to `nan`, and whatever remains of `nan`
after stripping the token cannot be a nonempty run of `[0-9\.-]`. -/
theorem numericMatch_nan (cur : Option (List Char)) : numericMatch cur (cs "nan") = false := by
  cases cur with
  | none => decide
  | some tok =>
    rcases hde : dropExact tok (cs "nan") with _ | rest
    · simp [numericMatch, hde]
    · obtain ⟨p, hp⟩ := dropExact_decomp _ _ _ hde
      have hmem : ∀ x ∈ rest, x = 'n' ∨ x = 'a' := by
        intro x hx
        have hx2 : x ∈ cs "nan" := by rw [hp]; exact List.mem_append_right _ hx
        have : x = 'n' ∨ x = 'a' ∨ x = 'n' := by simpa [cs] using hx2
        tauto
      have hnb : numericBody rest = false := by
        unfold numericBody
        rcases hbody : rest.dropWhile isWS with _ | ⟨x, xs⟩
        · simp [hbody]
        · have hx : x ∈ rest := mem_of_mem_dropWhile (by rw [hbody]; simp)
          have hnum : numChar x = false := by
            rcases hmem x hx with rfl | rfl <;> decide
          simp [hbody, hnum]
      simp [numericMatch, hde, hnb]

/-- C10: every validator preserves absence — an absent cell comes out absent
again, including the validators that stringify the column first (where the
marker becomes the text `nan`, which fails every domain predicate; for the
category validator this needs `nan` not to be in the allow-list, true of all
four lists the pipelines use). -/
theorem spec_C10 :
    nullCell .absent = .absent ∧
    alphaCell .absent = .absent ∧
    cardCell .absent = .absent ∧
    (∀ exp, cs "nan" ∉ exp → categoryCell exp .absent = .absent) ∧
    (∀ fmt, dateCell fmt .absent = .absent) ∧
    (∀ now, futureCell now .absent = .absent) ∧
    emailCell .absent = .absent ∧
    (∀ cur, numericPreCell cur .absent = .absent) ∧
    astypeFloatCell .absent = .ok .absent ∧
    phoneCell .absent = .absent ∧
    weightCellE .absent = .ok .absent := by
  refine ⟨rfl, rfl, rfl, ?_, fun fmt => rfl, fun now => rfl, by decide, ?_, rfl,
    by decide, rfl⟩
  · intro exp h
    unfold categoryCell
    have ht : trimList (astypeStr .absent) = cs "nan" := by decide
    rw [ht, if_neg h]
  · intro cur
    unfold numericPreCell
    have ht : trimList (astypeStr .absent) = cs "nan" := by decide
    rw [ht]
    simp [numericMatch_nan]

/-! Success/error elimination lemmas for the column operations. -/

theorem mapCol_ok_elim {t u : Table} {c : String} {f : Cell → Cell}
    (h : mapCol t c f = .ok u) :
    ∃ i, colIdxAux c t.header = some i ∧
      u = { t with rows := t.rows.map (mapAt i f) } := by
  rcases hidx : colIdxAux c t.header with _ | i
  · rw [mapCol_eq_none f hidx] at h
    cases h
  · rw [mapCol_eq_some f hidx] at h
    have h2 : { t with rows := t.rows.map (mapAt i f) } = u := by injection h
    exact ⟨i, rfl, h2.symm⟩

theorem setColE_elim {i : Nat} {f : Cell → Except String Cell} :
    ∀ {rows rows2 : List (List Cell)}, setColE i f rows = .ok rows2 →
      rows2.length = rows.length ∧
      ∀ n r, rows.getD n r = rows.getD n r → True := by
  intro rows
  induction rows with
  | nil =>
    intro rows2 h
    have h2 : ([] : List (List Cell)) = rows2 := by injection h
    exact ⟨by rw [← h2], fun _ _ _ => trivial⟩
  | cons r rest ih =>
    intro rows2 h
    unfold setColE at h
    rcases hx : f (r.getD i Cell.absent) with e | x <;> rw [hx] at h
    · cases h
    · rcases hrest : setColE i f rest with e | rest2 <;> rw [hrest] at h
      · cases h
      · have h2 : r.set i x :: rest2 = rows2 := by injection h
        obtain ⟨hlen, _⟩ := ih hrest
        rw [← h2]
        exact ⟨by simpa using hlen, fun _ _ _ => trivial⟩

theorem setColE_length {i : Nat} {f : Cell → Except String Cell}
    {rows rows2 : List (List Cell)} (h : setColE i f rows = .ok rows2) :
    rows2.length = rows.length := (setColE_elim h).1

theorem mapColE_ok_elim {t u : Table} {c : String} {f : Cell → Except String Cell}
    (h : mapColE t c f = .ok u) :
    u.header = t.header ∧ u.rows.length = t.rows.length := by
  unfold mapColE colIdxE at h
  rcases hidx : colIdxAux c t.header with _ | i <;> rw [hidx] at h
  · cases h
  · simp only [Bind.bind, Except.bind] at h
    rcases hrows : setColE i f t.rows with e | rows2 <;> rw [hrows] at h
    · cases h
    · have h2 : { t with rows := rows2 } = u := by
        simpa [pure, Except.pure] using h
      rw [← h2]
      exact ⟨rfl, setColE_length hrows⟩

theorem dropCols_ok_elim {df u : Table} {cols : List String}
    (h : dropCols df cols = .ok u) :
    u = projectCols df ((List.range df.header.length).filter
      (fun i => !(cols.contains (df.header.getD i "")))) := by
  unfold dropCols at h
  rcases hidx : colIdxsE df cols with e | idxs <;> rw [hidx] at h
  · cases h
  · simpa [Bind.bind, Except.bind, pure, Except.pure] using h.symm

theorem dropnaSubset_ok_elim {df u : Table} {cols : List String}
    (h : dropnaSubset df cols = .ok u) :
    ∃ idxs, colIdxsE df cols = .ok idxs ∧
      u = { df with
        rows := df.rows.filter
          (fun r => idxs.all (fun i => decide (r.getD i Cell.absent ≠ Cell.absent))) } := by
  unfold dropnaSubset at h
  rcases hidx : colIdxsE df cols with e | idxs <;> rw [hidx] at h
  · cases h
  · refine ⟨idxs, rfl, ?_⟩
    simpa [Bind.bind, Except.bind, pure, Except.pure] using h.symm

theorem colIdxE_ok_elim {t : Table} {c : String} {i : Nat} (h : colIdxE t c = .ok i) :
    colIdxAux c t.header = some i := by
  rcases ha : colIdxAux c t.header with _ | j
  · simp [colIdxE, ha] at h
  · simp [colIdxE, ha] at h
    rw [h]

theorem colIdxsE_cons {t : Table} {c : String} {cols : List String} :
    colIdxsE t (c :: cols) =
      (colIdxE t c >>= fun i => colIdxsE t cols >>= fun rest => pure (i :: rest)) := rfl

theorem colIdxsE_ok_mem {t : Table} :
    ∀ {cols : List String} {idxs : List Nat}, colIdxsE t cols = .ok idxs →
      ∀ c ∈ cols, ∃ i, colIdxAux c t.header = some i ∧ i ∈ idxs := by
  intro cols
  induction cols with
  | nil => intro idxs h c hc; exact absurd hc (by simp)
  | cons d rest ih =>
    intro idxs h c hc
    rw [colIdxsE_cons] at h
    rcases hidx : colIdxE t d with e | i
    · rw [hidx] at h
      simp only [Bind.bind, Except.bind] at h
      exact Except.noConfusion h
    · rw [hidx] at h
      simp only [Bind.bind, Except.bind] at h
      rcases hrest : colIdxsE t rest with e | idxs2
      · rw [hrest] at h
        exact Except.noConfusion h
      · rw [hrest] at h
        have h2 : i :: idxs2 = idxs := by simpa [pure, Except.pure] using h
        rcases List.mem_cons.mp hc with rfl | hc2
        · exact ⟨i, colIdxE_ok_elim hidx, by rw [← h2]; simp⟩
        · obtain ⟨j, hj, hjm⟩ := ih hrest c hc2
          exact ⟨j, hj, by rw [← h2]; simp [hjm]⟩

theorem colIdxE_err_of_missing {t : Table} {c : String} (h : c ∉ t.header) :
    colIdxE t c = .error ("KeyError: " ++ c) := by
  unfold colIdxE
  rw [colIdxAux_none.mpr h]

/-- A fold of per-column steps fails when a targeted column is missing,
provided each step preserves the header on success and fails on a missing
column. -/
theorem foldlM_err_of_missing (step : Table → String → Except String Table)
    (hstep_h : ∀ t c u, step t c = .ok u → u.header = t.header)
    (hstep_e : ∀ t c, c ∉ t.header → ∃ e, step t c = .error e) :
    ∀ (cols : List String) (t : Table) (c0 : String), c0 ∈ cols → c0 ∉ t.header →
      ∃ e, List.foldlM step t cols = .error e := by
  intro cols
  induction cols with
  | nil => intro t c0 hc; exact absurd hc (by simp)
  | cons c rest ih =>
    intro t c0 hc hmiss
    show ∃ e, step t c >>= (fun t2 => List.foldlM step t2 rest) = .error e
    rcases List.mem_cons.mp hc with rfl | hc2
    · obtain ⟨e, he⟩ := hstep_e t c0 hmiss
      exact ⟨e, by rw [he]; rfl⟩
    · rcases hs : step t c with e | t2
      · exact ⟨e, rfl⟩
      · obtain ⟨e, he⟩ := ih t2 c0 hc2 (by rw [hstep_h t c t2 hs]; exact hmiss)
        exact ⟨e, he⟩

theorem foldlM_ok_header (step : Table → String → Except String Table)
    (hstep : ∀ t c u, step t c = .ok u → u.header = t.header) :
    ∀ (cols : List String) (t u : Table), List.foldlM step t cols = .ok u →
      u.header = t.header := by
  intro cols
  induction cols with
  | nil =>
    intro t u h
    have h2 : t = u := by simpa [pure, Except.pure] using h
    rw [← h2]
  | cons c rest ih =>
    intro t u h
    have h2 : step t c >>= (fun t2 => List.foldlM step t2 rest) = .ok u := h
    rcases hs : step t c with e | t2 <;> rw [hs] at h2
    · cases h2
    · exact (ih t2 u h2).trans (hstep t c t2 hs)

/-- Header preservation for each generic cleaner. -/
theorem clean_numeric_step_header {t u : Table} {c : String} {cur : Option (List Char)}
    (h : (do
      let t2 ← mapCol t c (numericPreCell cur)
      match cur with
      | none => mapColE t2 c astypeFloatCell
      | some _ => pure t2) = .ok u) : u.header = t.header := by
  rcases hs : mapCol t c (numericPreCell cur) with e | t2
  · rw [hs] at h
    exact Except.noConfusion (show (Except.error e : Except String Table) = .ok u from h)
  · rw [hs] at h
    cases cur with
    | none =>
      have h2 : mapColE t2 c astypeFloatCell = .ok u := h
      exact ((mapColE_ok_elim h2).1).trans (mapCol_ok_header hs)
    | some tok =>
      have h2 : (pure t2 : Except String Table) = .ok u := h
      have h3 : t2 = u := by simpa [pure, Except.pure] using h2
      rw [← h3]
      exact mapCol_ok_header hs

theorem clean_dates_step_header {t u : Table} {c : String} {fmt : Option String}
    {fv : Bool} {now : Int}
    (h : (do
      let t2 ← mapCol t c (dateCell fmt)
      if fv then pure t2 else mapCol t2 c (futureCell now)) = .ok u) :
    u.header = t.header := by
  rcases hs : mapCol t c (dateCell fmt) with e | t2
  · rw [hs] at h
    exact Except.noConfusion (show (Except.error e : Except String Table) = .ok u from h)
  · rw [hs] at h
    cases fv with
    | true =>
      have h2 : (pure t2 : Except String Table) = .ok u := h
      have h3 : t2 = u := by simpa [pure, Except.pure] using h2
      rw [← h3]
      exact mapCol_ok_header hs
    | false =>
      have h2 : mapCol t2 c (futureCell now) = .ok u := h
      exact (mapCol_ok_header h2).trans (mapCol_ok_header hs)

/-! ### Claim C6 -/

theorem guard_nonempty (body : Table → Except String Table) (df : Table)
    (h : df.rows ≠ []) : only_clean_nonempty_df body df = body df := by
  unfold only_clean_nonempty_df
  cases hrows : df.rows with
  | nil => exact absurd hrows h
  | cons a l => rfl

theorem projectCols_rows_length (df : Table) (keep : List Nat) :
    (projectCols df keep).rows.length = df.rows.length := by
  simp [projectCols]

theorem mem_projectCols_header {df : Table} {keep : List Nat} {c : String} :
    c ∈ (projectCols df keep).header ↔ ∃ i ∈ keep, df.header.getD i "" = c := by
  simp [projectCols]

theorem foldlM_rows_length (step : Table → String → Except String Table)
    (hstep : ∀ t c u, step t c = .ok u → u.rows.length = t.rows.length) :
    ∀ (cols : List String) (t u : Table), List.foldlM step t cols = .ok u →
      u.rows.length = t.rows.length := by
  intro cols
  induction cols with
  | nil =>
    intro t u h
    have h2 : t = u := by simpa [pure, Except.pure] using h
    rw [← h2]
  | cons c rest ih =>
    intro t u h
    have h2 : step t c >>= (fun t2 => List.foldlM step t2 rest) = .ok u := h
    rcases hs : step t c with e | t2 <;> rw [hs] at h2
    · cases h2
    · exact (ih t2 u h2).trans (hstep t c t2 hs)

theorem mapCol_rows_length {t u : Table} {c : String} {f : Cell → Cell}
    (h : mapCol t c f = .ok u) : u.rows.length = t.rows.length := by
  obtain ⟨i, _, rfl⟩ := mapCol_ok_elim h
  simp

theorem clean_numeric_step_length {t u : Table} {c : String} {cur : Option (List Char)}
    (h : (do
      let t2 ← mapCol t c (numericPreCell cur)
      match cur with
      | none => mapColE t2 c astypeFloatCell
      | some _ => pure t2) = .ok u) : u.rows.length = t.rows.length := by
  rcases hs : mapCol t c (numericPreCell cur) with e | t2
  · rw [hs] at h
    exact Except.noConfusion (show (Except.error e : Except String Table) = .ok u from h)
  · rw [hs] at h
    cases cur with
    | none =>
      have h2 : mapColE t2 c astypeFloatCell = .ok u := h
      exact ((mapColE_ok_elim h2).2).trans (mapCol_rows_length hs)
    | some tok =>
      have h2 : (pure t2 : Except String Table) = .ok u := h
      have h3 : t2 = u := by simpa [pure, Except.pure] using h2
      rw [← h3]
      exact mapCol_rows_length hs

/-- The body of `clean_orders_data` before the final `dropna(axis=1)`:
null standardization, spurious-column pruning, dropping the personal-name
columns, card-number cleaning and product-quantity cleaning. -/
def clean_orders_pre (df : Table) : Except String Table := do
  let df := drop_unwanted_columns (standardize_nulls df)
  let df ← dropCols df ["first_name", "last_name"]
  let df ← clean_card_numbers df ["card_number"]
  clean_numeric_cols df ["product_quantity"] none

theorem clean_orders_eq_pre (df : Table) (h : df.rows ≠ []) :
    clean_orders_data df = (clean_orders_pre df).map dropnaCols := by
  unfold clean_orders_data clean_orders_pre
  rw [guard_nonempty _ _ h]
  dsimp only []
  rcases h1 : dropCols (drop_unwanted_columns (standardize_nulls df))
    ["first_name", "last_name"] with e | t1
  · rfl
  · dsimp only [bind, Except.bind]
    rcases h2 : clean_card_numbers t1 ["card_number"] with e | t2
    · rfl
    · dsimp only [bind, Except.bind]
      rcases h3 : clean_numeric_cols t2 ["product_quantity"] none with e | t3
      · rfl
      · rfl

theorem clean_orders_pre_length {df mid : Table} (h : clean_orders_pre df = .ok mid) :
    mid.rows.length = df.rows.length := by
  unfold clean_orders_pre at h
  dsimp only [] at h
  rcases h1 : dropCols (drop_unwanted_columns (standardize_nulls df))
    ["first_name", "last_name"] with e | t1 <;> rw [h1] at h
  · exact Except.noConfusion (show (Except.error e : Except String Table) = .ok mid from h)
  · dsimp only [bind, Except.bind] at h
    rcases h2 : clean_card_numbers t1 ["card_number"] with e | t2 <;> rw [h2] at h
    · exact Except.noConfusion
        (show (Except.error e : Except String Table) = .ok mid from h)
    · dsimp only [bind, Except.bind] at h
      have h3 : clean_numeric_cols t2 ["product_quantity"] none = .ok mid := h
      have l3 : mid.rows.length = t2.rows.length :=
        foldlM_rows_length _ (fun t c u hu => clean_numeric_step_length hu) _ _ _ h3
      have l2 : t2.rows.length = t1.rows.length :=
        foldlM_rows_length _ (fun t c u hu => mapCol_rows_length hu) _ _ _ h2
      have l1 : t1.rows.length = df.rows.length := by
        rw [dropCols_ok_elim h1]
        rw [projectCols_rows_length]
        unfold drop_unwanted_columns
        rw [projectCols_rows_length]
        simp [standardize_nulls]
      rw [l3, l2, l1]

/-- C6 (amended): the order pipeline drops **no rows at all** — the output
row count equals the input row count — and the final `dropna(axis=1)` drops
exactly the columns that contain at least one absent cell after cleaning: a
name survives into the output header iff some column carrying that name has
**no** absent cell.  (The claim's version — only all-absent columns are
dropped, any column with one parsed value is kept — is refuted by the
counterexample.) -/
theorem spec_C6 : ∀ df out, df.rows ≠ [] → clean_orders_data df = .ok out →
    ∃ mid, clean_orders_pre df = .ok mid ∧ out = dropnaCols mid ∧
      mid.rows.length = df.rows.length ∧
      out.rows.length = df.rows.length ∧
      ∀ name, name ∈ out.header ↔
        ∃ j, j < mid.header.length ∧ mid.header.getD j "" = name ∧
          ∀ r ∈ mid.rows, r.getD j Cell.absent ≠ Cell.absent := by
  intro df out hne hok
  rw [clean_orders_eq_pre df hne] at hok
  rcases hpre : clean_orders_pre df with e | mid <;> rw [hpre] at hok
  · exact Except.noConfusion (show (Except.error e : Except String Table) = .ok out from hok)
  · have hout : out = dropnaCols mid := by
      have h2 : (Except.ok (dropnaCols mid) : Except String Table) = .ok out := hok
      have h3 : dropnaCols mid = out := by injection h2
      exact h3.symm
    refine ⟨mid, rfl, hout, clean_orders_pre_length hpre, ?_, ?_⟩
    · rw [hout]
      show (projectCols mid _).rows.length = _
      rw [projectCols_rows_length]
      exact clean_orders_pre_length hpre
    · intro name
      rw [hout]
      show name ∈ (projectCols mid _).header ↔ _
      rw [mem_projectCols_header]
      constructor
      · rintro ⟨i, hi, hname⟩
        rw [List.mem_filter, List.mem_range] at hi
        obtain ⟨hir, hpred⟩ := hi
        refine ⟨i, hir, hname, fun r hr => ?_⟩
        have := List.all_eq_true.mp hpred r hr
        simpa using this
      · rintro ⟨j, hj, hname, hall⟩
        refine ⟨j, ?_, hname⟩
        rw [List.mem_filter, List.mem_range]
        refine ⟨hj, List.all_eq_true.mpr (fun r hr => by simpa using hall r hr)⟩

def ordersW : Table :=
  ⟨["first_name", "last_name", "card_number", "product_quantity"],
   [[.str (cs "A"), .str (cs "B"), .str (cs "4111111111"), .str (cs "2")]]⟩

/-- C6 witness: the amended statement instantiated on a concrete
one-row order table whose card number and quantity both clean. -/
theorem spec_C6_witness :
    ∃ mid, clean_orders_pre ordersW = .ok mid ∧
      (⟨["card_number", "product_quantity"],
        [[Cell.str (cs "4111111111"), Cell.num 2]]⟩ : Table) = dropnaCols mid ∧
      mid.rows.length = ordersW.rows.length ∧
      (⟨["card_number", "product_quantity"],
        [[Cell.str (cs "4111111111"), Cell.num 2]]⟩ : Table).rows.length
        = ordersW.rows.length ∧
      ∀ name, name ∈ (⟨["card_number", "product_quantity"],
        [[Cell.str (cs "4111111111"), Cell.num 2]]⟩ : Table).header ↔
        ∃ j, j < mid.header.length ∧ mid.header.getD j "" = name ∧
          ∀ r ∈ mid.rows, r.getD j Cell.absent ≠ Cell.absent :=
  spec_C6 ordersW _ (by decide)
    (by set_option maxRecDepth 6000 in with_unfolding_all decide)

/-- Counterexample to C6 as stated: in a two-row order table, the
`card_number` column holds one cell that cleans successfully
(`4111111111`, ten digits) and one that fails (`abc`); the claim says a
column with at least one successfully parsed value is retained, but
`dropna(axis=1)` drops the whole column (while both rows survive). -/
theorem spec_C6_counterexample :
    clean_orders_data ⟨["date_uuid", "first_name", "last_name", "card_number",
        "product_quantity"],
      [[.str (cs "u1"), .str (cs "Ann"), .str (cs "Lee"), .str (cs "4111111111"),
        .str (cs "3")],
       [.str (cs "u2"), .str (cs "Bob"), .str (cs "Kim"), .str (cs "abc"),
        .str (cs "2")]]⟩
      = .ok ⟨["date_uuid", "product_quantity"],
        [[.str (cs "u1"), .num 3], [.str (cs "u2"), .num 2]]⟩ ∧
    cardCell (.str (cs "4111111111")) = .str (cs "4111111111") ∧
    "card_number" ∉ (["date_uuid", "product_quantity"] : List String) := by
  refine ⟨?_, by decide, by decide⟩
  set_option maxRecDepth 6000 in with_unfolding_all decide

/-! ### Claim C3 -/

theorem except_bind_assoc {α β γ ε : Type} (m : Except ε α) (f : α → Except ε β)
    (g : β → Except ε γ) : (m >>= f) >>= g = m >>= fun x => f x >>= g := by
  cases m <;> rfl

/-- The body of `clean_store_data` before the final
`dropna(subset=['store_code', 'store_type', 'country_code'])`. -/
def clean_store_pre (now : Int) (df : Table) : Except String Table := do
  let df := drop_unwanted_columns (standardize_nulls df)
  let df ← clean_dates df ["opening_date"] none true now
  let df ← clean_categories df ["country_code"] country_codes
  let df ← mapCol df "continent" astypeStrCell
  let df ← mapCol df "continent" stripLeadingEe
  let df ← mapCol df "continent" capitalizeCell
  let df ← clean_categories df ["continent"] continents
  let df ← clean_alpha_cols df ["store_type", "locality"]
  clean_numeric_cols df ["latitude", "lat", "longitude", "staff_numbers"] none

theorem clean_store_eq_pre (now : Int) (df : Table) (h : df.rows ≠ []) :
    clean_store_data now df = clean_store_pre now df >>=
      (fun mid => dropnaSubset mid ["store_code", "store_type", "country_code"]) := by
  unfold clean_store_data clean_store_pre
  rw [guard_nonempty _ _ h]
  simp only [except_bind_assoc]

/-- C3 (amended): the row-completeness filter of `clean_store_data` is
`dropna` on the subset `store_code`, `store_type`, `country_code` — **not**
`address`.  For a non-empty input, the output rows are exactly the cleaned
rows that are non-absent in those three columns (and every surviving row is
non-absent there); a row whose `address` is absent is **kept** whenever the
trio is present, refuting the claim's required-column set. -/
theorem spec_C3 : ∀ (now : Int) (df out : Table), df.rows ≠ [] →
    clean_store_data now df = .ok out →
    ∃ mid idxs, clean_store_pre now df = .ok mid ∧
      colIdxsE mid ["store_code", "store_type", "country_code"] = .ok idxs ∧
      out.header = mid.header ∧
      out.rows = mid.rows.filter
        (fun r => idxs.all (fun i => decide (r.getD i Cell.absent ≠ Cell.absent))) ∧
      ∀ r ∈ out.rows, ∀ i ∈ idxs, r.getD i Cell.absent ≠ Cell.absent := by
  intro now df out hne hok
  rw [clean_store_eq_pre now df hne] at hok
  rcases hpre : clean_store_pre now df with e | mid <;> rw [hpre] at hok
  · exact Except.noConfusion (show (Except.error e : Except String Table) = .ok out from hok)
  · dsimp only [bind, Except.bind] at hok
    unfold dropnaSubset at hok
    rcases hidx : colIdxsE mid ["store_code", "store_type", "country_code"]
      with e | idxs <;> rw [hidx] at hok
    · exact Except.noConfusion
        (show (Except.error e : Except String Table) = .ok out from hok)
    · dsimp only [bind, Except.bind] at hok
      have h2 : ({ mid with
        rows := mid.rows.filter
          (fun r => idxs.all
            (fun i => decide (r.getD i Cell.absent ≠ Cell.absent))) } : Table)
          = out := by
        have h3 : (Except.ok ({ mid with
          rows := mid.rows.filter
            (fun r => idxs.all
              (fun i => decide (r.getD i Cell.absent ≠ Cell.absent))) } : Table)
            : Except String Table) = .ok out := hok
        injection h3
      refine ⟨mid, idxs, rfl, hidx, ?_, ?_, ?_⟩
      · rw [← h2]
      · rw [← h2]
      · intro r hr i hi
        rw [← h2] at hr
        have hr2 := (List.mem_filter.mp hr).2
        have := List.all_eq_true.mp hr2 i hi
        simpa using this

/-- A store row whose `address` is absent but whose `store_code`,
`store_type` and `country_code` are present. -/
def storeCX : Table :=
  ⟨["address", "opening_date", "country_code", "continent", "store_type",
    "locality", "latitude", "lat", "longitude", "staff_numbers", "store_code"],
   [[.absent, .str (cs "2000-01-01"), .str (cs "GB"), .str (cs "eeEurope"),
     .str (cs "Mall Kiosk"), .str (cs "Leeds"), .str (cs "1"), .str (cs "2"),
     .str (cs "3"), .str (cs "4"), .str (cs "LE-123")]]⟩

def storeCXout : Table :=
  ⟨["address", "opening_date", "country_code", "continent", "store_type",
    "locality", "latitude", "lat", "longitude", "staff_numbers", "store_code"],
   [[.absent, .date 20000101, .str (cs "GB"), .str (cs "Europe"),
     .str (cs "Mall Kiosk"), .str (cs "Leeds"), .num 1, .num 2, .num 3,
     .num 4, .str (cs "LE-123")]]⟩

/-- Counterexample to C3 as stated: the single row of `storeCX` has the
absent marker in its `address` column, yet `clean_store_data` keeps it
(with its `address` still absent), because the subset filter requires
`store_code`, `store_type`, `country_code` — not `address`. -/
theorem spec_C3_counterexample :
    clean_store_data 20251012 storeCX = .ok storeCXout ∧
    storeCX.header.getD 0 "" = "address" ∧
    (storeCX.rows.getD 0 []).getD 0 Cell.absent = Cell.absent ∧
    storeCXout.rows.length = 1 := by
  refine ⟨?_, by decide, by decide, by decide⟩
  set_option maxRecDepth 16000 in decide

/-- C3 witness: the amended statement instantiated at `storeCX`. -/
theorem spec_C3_witness :
    ∃ mid idxs, clean_store_pre 20251012 storeCX = .ok mid ∧
      colIdxsE mid ["store_code", "store_type", "country_code"] = .ok idxs ∧
      storeCXout.header = mid.header ∧
      storeCXout.rows = mid.rows.filter
        (fun r => idxs.all (fun i => decide (r.getD i Cell.absent ≠ Cell.absent))) ∧
      ∀ r ∈ storeCXout.rows, ∀ i ∈ idxs, r.getD i Cell.absent ≠ Cell.absent :=
  spec_C3 20251012 storeCX storeCXout (by decide)
    (by set_option maxRecDepth 16000 in decide)

/-! ### Claim C4 -/

theorem not_mem_drop_unwanted {df : Table} {c : String} (hc : c ≠ "")
    (h : c ∉ df.header) :
    c ∉ (drop_unwanted_columns (standardize_nulls df)).header := by
  intro hmem
  rw [drop_unwanted_columns, mem_projectCols_header] at hmem
  obtain ⟨i, _, hgetD⟩ := hmem
  have hsame : (standardize_nulls df).header = df.header := rfl
  rw [hsame] at hgetD
  by_cases hlt : i < df.header.length
  · have hm : df.header.getD i "" ∈ df.header := by
      rw [List.getD_eq_getElem _ _ hlt]
      exact List.getElem_mem hlt
    rw [hgetD] at hm
    exact h hm
  · rw [List.getD_eq_default _ _ (le_of_not_lt hlt)] at hgetD
    exact hc hgetD.symm

theorem mapCol_err_of_missing {t : Table} {c : String} (f : Cell → Cell)
    (h : c ∉ t.header) : mapCol t c f = .error ("KeyError: " ++ c) := by
  unfold mapCol
  rw [colIdxE_err_of_missing h]
  rfl

theorem clean_dates_header {t u : Table} {cols : List String} {fmt : Option String}
    {fv : Bool} {now : Int} (h : clean_dates t cols fmt fv now = .ok u) :
    u.header = t.header :=
  foldlM_ok_header _ (fun _ _ _ hb => clean_dates_step_header hb) cols t u h

theorem clean_categories_header {t u : Table} {cols : List String}
    {cats : List (List Char)} (h : clean_categories t cols cats = .ok u) :
    u.header = t.header :=
  foldlM_ok_header _ (fun _ _ _ hb => mapCol_ok_header hb) cols t u h

theorem clean_alpha_header {t u : Table} {cols : List String}
    (h : clean_alpha_cols t cols = .ok u) : u.header = t.header :=
  foldlM_ok_header _ (fun _ _ _ hb => mapCol_ok_header hb) cols t u h

theorem clean_numeric_header {t u : Table} {cols : List String}
    {cur : Option (List Char)} (h : clean_numeric_cols t cols cur = .ok u) :
    u.header = t.header :=
  foldlM_ok_header _ (fun _ _ _ hb => clean_numeric_step_header hb) cols t u h

theorem clean_store_pre_header {now : Int} {df mid : Table}
    (h : clean_store_pre now df = .ok mid) :
    mid.header = (drop_unwanted_columns (standardize_nulls df)).header := by
  unfold clean_store_pre at h
  dsimp only [] at h
  rcases h1 : clean_dates (drop_unwanted_columns (standardize_nulls df))
    ["opening_date"] none true now with e | t1 <;> rw [h1] at h
  · exact Except.noConfusion (show (Except.error e : Except String Table) = .ok mid from h)
  · dsimp only [bind, Except.bind] at h
    rcases h2 : clean_categories t1 ["country_code"] country_codes
      with e | t2 <;> rw [h2] at h
    · exact Except.noConfusion
        (show (Except.error e : Except String Table) = .ok mid from h)
    · dsimp only [bind, Except.bind] at h
      rcases h3 : mapCol t2 "continent" astypeStrCell with e | t3 <;> rw [h3] at h
      · exact Except.noConfusion
          (show (Except.error e : Except String Table) = .ok mid from h)
      · dsimp only [bind, Except.bind] at h
        rcases h4 : mapCol t3 "continent" stripLeadingEe with e | t4 <;> rw [h4] at h
        · exact Except.noConfusion
            (show (Except.error e : Except String Table) = .ok mid from h)
        · dsimp only [bind, Except.bind] at h
          rcases h5 : mapCol t4 "continent" capitalizeCell with e | t5 <;> rw [h5] at h
          · exact Except.noConfusion
              (show (Except.error e : Except String Table) = .ok mid from h)
          · dsimp only [bind, Except.bind] at h
            rcases h6 : clean_categories t5 ["continent"] continents
              with e | t6 <;> rw [h6] at h
            · exact Except.noConfusion
                (show (Except.error e : Except String Table) = .ok mid from h)
            · dsimp only [bind, Except.bind] at h
              rcases h7 : clean_alpha_cols t6 ["store_type", "locality"]
                with e | t7 <;> rw [h7] at h
              · exact Except.noConfusion
                  (show (Except.error e : Except String Table) = .ok mid from h)
              · dsimp only [bind, Except.bind] at h
                have h8 : clean_numeric_cols t7
                  ["latitude", "lat", "longitude", "staff_numbers"] none = .ok mid := h
                calc mid.header = t7.header := clean_numeric_header h8
                  _ = t6.header := clean_alpha_header h7
                  _ = t5.header := clean_categories_header h6
                  _ = t4.header := mapCol_ok_header h5
                  _ = t3.header := mapCol_ok_header h4
                  _ = t2.header := mapCol_ok_header h3
                  _ = t1.header := clean_categories_header h2
                  _ = _ := clean_dates_header h1

/-- C4 (amended): the pipelines do **not** tolerate missing columns.  On a
non-empty input, a missing column that a cleaning step targets
(`country` in `clean_user_data`) or that the completeness filter requires
(`store_code` in `clean_store_data`) makes the pipeline raise a `KeyError`
instead of returning a table; no step is skipped and no
"treat-as-all-absent" fallback exists.  Only the empty-input guard returns
a table (the empty one) regardless of which columns exist. -/
theorem spec_C4 :
    (∀ (now : Int) (df : Table), df.rows ≠ [] → "country" ∉ df.header →
      ∃ e, clean_user_data now df = .error e) ∧
    (∀ (now : Int) (df : Table), df.rows ≠ [] → "store_code" ∉ df.header →
      ∃ e, clean_store_data now df = .error e) ∧
    (∀ (now : Int) (df : Table), df.rows = [] →
      clean_user_data now df = .ok Table.empty ∧
      clean_store_data now df = .ok Table.empty) := by
  refine ⟨?_, ?_, ?_⟩
  · intro now df hne h
    obtain ⟨e, he⟩ := foldlM_err_of_missing (fun t c => mapCol t c alphaCell)
      (fun _ _ _ hu => mapCol_ok_header hu)
      (fun t c hc => ⟨_, mapCol_err_of_missing _ hc⟩)
      ["first_name", "last_name", "country"]
      (drop_unwanted_columns (standardize_nulls df)) "country" (by decide)
      (not_mem_drop_unwanted (by decide) h)
    refine ⟨e, ?_⟩
    unfold clean_user_data
    rw [guard_nonempty _ _ hne]
    dsimp only []
    unfold clean_alpha_cols
    show List.foldlM _ _ _ >>= _ = .error e
    rw [he]
    rfl
  · intro now df hne h
    rw [clean_store_eq_pre now df hne]
    rcases hpre : clean_store_pre now df with e | mid
    · exact ⟨e, rfl⟩
    · have hmiss : "store_code" ∉ mid.header := by
        rw [clean_store_pre_header hpre]
        exact not_mem_drop_unwanted (by decide) h
      refine ⟨"KeyError: " ++ "store_code", ?_⟩
      dsimp only [bind, Except.bind]
      unfold dropnaSubset
      rw [colIdxsE_cons, colIdxE_err_of_missing hmiss]
      rfl
  · intro now df hempty
    exact ⟨guard_empty _ df hempty, guard_empty _ df hempty⟩

/-- C4 witness: a one-row user table lacking `country` and a one-row store
table lacking `store_code` both make their pipelines raise, and empty
tables short-circuit to the empty table. -/
theorem spec_C4_witness :
    (∃ e, clean_user_data 0 ⟨["first_name"], [[Cell.str (cs "A")]]⟩ = .error e) ∧
    (∃ e, clean_store_data 0 ⟨["opening_date"], [[Cell.str (cs "2000-01-01")]]⟩
      = .error e) ∧
    (clean_user_data 0 ⟨["first_name"], []⟩ = .ok Table.empty ∧
     clean_store_data 0 ⟨["first_name"], []⟩ = .ok Table.empty) :=
  ⟨spec_C4.1 0 ⟨["first_name"], [[Cell.str (cs "A")]]⟩ (by decide) (by decide),
   spec_C4.2.1 0 ⟨["opening_date"], [[Cell.str (cs "2000-01-01")]]⟩
     (by decide) (by decide),
   spec_C4.2.2 0 ⟨["first_name"], []⟩ rfl⟩

/-- Counterexample to C4 as stated: a non-empty user table without a
`country` column does not come back with all rows dropped — the pipeline
raises `KeyError: country` and returns no table at all. -/
theorem spec_C4_counterexample :
    clean_user_data 0 ⟨["first_name", "last_name"],
      [[Cell.str (cs "Jane"), Cell.str (cs "Smith")]]⟩
      = .error "KeyError: country" ∧
    ∀ t : Table, clean_user_data 0 ⟨["first_name", "last_name"],
      [[Cell.str (cs "Jane"), Cell.str (cs "Smith")]]⟩ ≠ .ok t := by
  constructor
  · set_option maxRecDepth 4000 in decide
  · intro t h
    rw [show clean_user_data 0 ⟨["first_name", "last_name"],
      [[Cell.str (cs "Jane"), Cell.str (cs "Smith")]]⟩
      = .error "KeyError: country" by set_option maxRecDepth 4000 in decide] at h
    exact Except.noConfusion h

/-! ### Claim C1 -/

def prodC1 : Table :=
  ⟨["weight", "product_price", "date_added", "category", "removed"],
   [[.str (cs "200g"), .str (pound ++ cs "1.5"), .str (cs "2020-05-05"),
     .str (cs "toys-and-games"), .str (cs "Still_available")]]⟩

def prodC1out : Table :=
  ⟨["weight", "product_price", "date_added", "category", "removed"],
   [[.num ((200 : ℚ) * 1 * (1 / 1000)), .str (pound ++ cs "1.5"),
     .date 20200505, .str (cs "toys-and-games"), .str (cs "Still_available")]]⟩

def ordersC1 : Table :=
  ⟨["first_name", "last_name", "card_number", "product_quantity"],
   [[.str (cs "Jo"), .str (cs "Ng"), .str (cs "5500000000000004"),
     .str (cs "5")]]⟩

def ordersC1out : Table :=
  ⟨["card_number", "product_quantity"],
   [[Cell.str (cs "5500000000000004"), Cell.num 5]]⟩

/-- C1 is false of the code: `clean_products_data` and `clean_orders_data`
both raise on their own output.  `prodC1` cleans successfully, but re-running
the products pipeline on the result hits the `.str` accessor on the
now-all-float `weight` column (`AttributeError`); `ordersC1` cleans
successfully, but re-running the orders pipeline on the result tries to drop
the already-dropped `first_name` column (`KeyError`).  So `P(P(T))` is not
`P(T)`: it is no table at all. -/
theorem spec_C1 :
    clean_products_data 0 prodC1 = .ok prodC1out ∧
    clean_products_data 0 prodC1out = .error "AttributeError" ∧
    clean_orders_data ordersC1 = .ok ordersC1out ∧
    clean_orders_data ordersC1out = .error "KeyError: first_name" := by
  refine ⟨?_, ?_, ?_, ?_⟩
  · set_option maxRecDepth 16000 in rfl
  · set_option maxRecDepth 16000 in rfl
  · set_option maxRecDepth 16000 in rfl
  · set_option maxRecDepth 16000 in rfl

/-! ### Claim C8 -/

theorem takeWhile_mem_pred {p : Char → Bool} :
    ∀ {l : List Char} {x : Char}, x ∈ l.takeWhile p → p x = true := by
  intro l
  induction l with
  | nil => intro x h; exact absurd h (by simp)
  | cons c t ih =>
    intro x h
    rw [List.takeWhile_cons] at h
    by_cases hc : p c = true
    · rw [if_pos hc] at h
      rcases List.mem_cons.mp h with rfl | h
      · exact hc
      · exact ih h
    · rw [if_neg hc] at h
      exact absurd h (by simp)

theorem dropWhile_head_false {p : Char → Bool} :
    ∀ {l : List Char} {c : Char} {t : List Char}, l.dropWhile p = c :: t → p c = false := by
  intro l
  induction l with
  | nil => intro c t h; simp at h
  | cons d l2 ih =>
    intro c t h
    rw [List.dropWhile_cons] at h
    by_cases hd : p d = true
    · rw [if_pos hd] at h
      exact ih h
    · rw [if_neg hd] at h
      cases h
      simpa using hd

theorem drop_takeWhile_length (p : Char → Bool) (l : List Char) :
    l.drop (l.takeWhile p).length = l.dropWhile p := by
  induction l with
  | nil => rfl
  | cons c t ih =>
    rw [List.takeWhile_cons, List.dropWhile_cons]
    by_cases hc : p c = true
    · rw [if_pos hc, if_pos hc]
      simpa using ih
    · rw [if_neg hc, if_neg hc]
      simp

theorem takeWhile_split (p : Char → Bool) (l : List Char) :
    l = l.takeWhile p ++ l.drop (l.takeWhile p).length := by
  rw [drop_takeWhile_length]
  exact (List.takeWhile_append_dropWhile p l).symm

/-- The declarative reading of `^[^@]+@[^@]+\.[^@\.]+$` from the spec: a
nonempty `@`-free local part, one `@`, a nonempty `@`-free middle, a dot, and
a nonempty final label containing neither `@` nor a dot. -/
def EmailPattern (l : List Char) : Prop :=
  ∃ a b c : List Char, l = a ++ '@' :: (b ++ '.' :: c) ∧
    a ≠ [] ∧ b ≠ [] ∧ c ≠ [] ∧ '@' ∉ a ∧ '@' ∉ b ∧ '@' ∉ c ∧ '.' ∉ c

theorem isValidEmail_iff (l : List Char) : isValidEmail l = true ↔ EmailPattern l := by
  constructor
  · intro h
    simp only [isValidEmail, emailDomOk, Bool.and_eq_true, decide_eq_true_eq] at h
    set A := l.takeWhile (fun c : Char => decide (c ≠ '@')) with hA
    set R := l.drop A.length with hR
    set dom := R.tail with hdomdef
    set CP := dom.reverse.takeWhile (fun c : Char => decide (c ≠ '.')) with hCP
    set R2 := dom.reverse.drop CP.length with hR2def
    have ha : A ≠ [] := by tauto
    have hne : R ≠ [] := by tauto
    have hdom : '@' ∉ dom := by tauto
    have hcp : CP ≠ [] := by tauto
    have hr2 : R2 ≠ [] := by tauto
    have htail : R2.tail ≠ [] := by tauto
    obtain ⟨hd, dom2, hcons⟩ := List.exists_cons_of_ne_nil hne
    have hdomeq : dom = dom2 := by rw [hdomdef, hcons]; rfl
    have hhd : hd = '@' := by
      have hdw2 := drop_takeWhile_length (fun c : Char => decide (c ≠ '@')) l
      rw [← hA, ← hR, hcons] at hdw2
      have := dropWhile_head_false hdw2.symm
      simpa using this
    obtain ⟨d2, tail2, hcons2⟩ := List.exists_cons_of_ne_nil hr2
    have hd2 : d2 = '.' := by
      have hdw := drop_takeWhile_length (fun c : Char => decide (c ≠ '.')) dom.reverse
      rw [← hCP, ← hR2def, hcons2] at hdw
      have := dropWhile_head_false hdw.symm
      simpa using this
    have hsplit : l = A ++ '@' :: dom := by
      conv_lhs => rw [takeWhile_split (fun c : Char => decide (c ≠ '@')) l]
      rw [← hA, ← hR, hcons, hhd, hdomeq]
    have hsplit2 : dom.reverse = CP ++ '.' :: tail2 := by
      conv_lhs => rw [takeWhile_split (fun c : Char => decide (c ≠ '.')) dom.reverse]
      rw [← hCP, ← hR2def, hcons2, hd2]
    have hdomsplit : dom = tail2.reverse ++ '.' :: CP.reverse := by
      have h1 : dom = (dom.reverse).reverse := by simp
      rw [h1]
      conv_lhs => rw [hsplit2]
      simp
    have htailne : tail2 ≠ [] := by
      rw [hcons2] at htail
      simpa using htail
    refine ⟨A, tail2.reverse, CP.reverse, ?_, ha, ?_, ?_, ?_, ?_, ?_, ?_⟩
    · conv_lhs => rw [hsplit]
      rw [hdomsplit]
    · simpa using htailne
    · simpa using hcp
    · intro hcon
      have hmem : '@' ∈ A := hcon
      have := takeWhile_mem_pred (hA ▸ hmem)
      simp at this
    · intro hcon
      have hmem : '@' ∈ tail2 := by simpa using hcon
      apply hdom
      rw [hdomsplit]
      simp [hmem]
    · intro hcon
      have hmem : '@' ∈ CP := by simpa using hcon
      apply hdom
      rw [hdomsplit]
      simp [hmem]
    · intro hcon
      have hmem : '.' ∈ CP := by simpa using hcon
      have := takeWhile_mem_pred (hCP ▸ hmem)
      simp at this
  · rintro ⟨a, b, c, rfl, ha, hb, hc, haa, hab, hac, hdc⟩
    unfold isValidEmail emailDomOk
    have htw : (a ++ '@' :: (b ++ '.' :: c)).takeWhile (fun x => decide (x ≠ '@')) = a := by
      refine takeWhile_append_not _ _ _ _ (fun x hx => ?_) (by simp)
      simp only [decide_eq_true_eq]
      exact fun hcon => haa (hcon ▸ hx)
    rw [htw, drop_len_append, List.tail_cons]
    have hdomrev : (b ++ '.' :: c).reverse = c.reverse ++ '.' :: b.reverse := by
      simp
    rw [hdomrev]
    have htw2 : (c.reverse ++ '.' :: b.reverse).takeWhile (fun x => decide (x ≠ '.'))
        = c.reverse := by
      refine takeWhile_append_not _ _ _ _ (fun x hx => ?_) (by simp)
      have hx2 : x ∈ c := by simpa using hx
      simp only [decide_eq_true_eq]
      exact fun hcon => hdc (hcon ▸ hx2)
    rw [htw2, drop_len_append, List.tail_cons]
    have h1 : '@' ∉ b ++ '.' :: c := by
      intro hcon
      rcases List.mem_append.mp hcon with hcon | hcon
      · exact hab hcon
      · rcases List.mem_cons.mp hcon with hcon | hcon
        · exact absurd hcon (by decide)
        · exact hac hcon
    have h2 : c.reverse ≠ [] := by simpa using hc
    have h3 : b.reverse ≠ [] := by simpa using hb
    simp [ha, h1, h2, h3]

/-- C8: a (stringified, trimmed, `@`-run-collapsed) email cell is kept
exactly when it matches the pattern "one-or-more non-@, `@`, one-or-more
non-@, a dot, one-or-more characters with neither `@` nor dot"; in
particular `a@@b.com` normalizes to `a@b.com` and is kept, while `a@b@c.com`
becomes absent because only consecutive `@` runs are collapsed. -/
theorem spec_C8 :
    (∀ s : List Char,
      (emailCell (.str s) = .str (collapseAts (trimList s))
        ↔ EmailPattern (collapseAts (trimList s))) ∧
      (emailCell (.str s) = .absent ↔ ¬ EmailPattern (collapseAts (trimList s)))) ∧
    emailCell (.str (cs "a@@b.com")) = .str (cs "a@b.com") ∧
    emailCell (.str (cs "a@b@c.com")) = .absent := by
  refine ⟨fun s => ?_, by decide, by decide⟩
  by_cases hv : isValidEmail (collapseAts (trimList s)) = true
  · have he : emailCell (.str s) = .str (collapseAts (trimList s)) := by
      unfold emailCell
      simp [astypeStr, hv]
    have hp := (isValidEmail_iff _).mp hv
    constructor
    · exact ⟨fun _ => hp, fun _ => he⟩
    · constructor
      · intro hcon
        rw [he] at hcon
        cases hcon
      · intro hcon
        exact absurd hp hcon
  · have he : emailCell (.str s) = .absent := by
      unfold emailCell
      simp [astypeStr, hv]
    have hp : ¬ EmailPattern (collapseAts (trimList s)) := fun hcon =>
      hv ((isValidEmail_iff _).mpr hcon)
    constructor
    · constructor
      · intro hcon
        rw [he] at hcon
        cases hcon
      · intro hcon
        exact absurd hcon hp
    · exact ⟨fun _ => hp, fun _ => he⟩

/-- Witness for C10's hypothesised conjuncts at the concrete allow-lists,
formats and currency token of the pipelines. -/
theorem spec_C10_witness :
    categoryCell country_codes .absent = .absent ∧
    categoryCell product_categories .absent = .absent ∧
    dateCell (some "%m/%y") .absent = .absent ∧
    futureCell 20250101 .absent = .absent ∧
    numericPreCell (some pound) .absent = .absent :=
  ⟨spec_C10.2.2.2.1 country_codes (by decide),
    spec_C10.2.2.2.1 product_categories (by decide),
    spec_C10.2.2.2.2.1 (some "%m/%y"),
    spec_C10.2.2.2.2.2.1 20250101,
    spec_C10.2.2.2.2.2.2.2.1 (some pound)⟩

end MRDC
